import Mathlib

/-!
Shallow embedding of the RAMCloud coordinator server list
(src/src/CoordinatorServerList.cc) and of the bit-packed hash-table entry
format exercised by src/src/HashTableTest.cc, together with proofs that
settle the specification claims about them.

State is passed explicitly; C++ exceptions become the Except monad; the
durable LogCabin log, tracker callbacks and master-recovery notifications
are modelled as recorded outputs (event and recovery-call logs in the
state).
-/

namespace RAMCloud

/-- Status of a server in the coordinator server list. -/
inductive ServerStatus where
  | up
  | crashed
  | down
deriving DecidableEq, Repr

/-- A server identity: (slot index, reuse generation).  In the C++ code this
is a packed 64-bit value; the claims only ever use the two components. -/
structure ServerId where
  index : Nat
  generation : Nat
deriving DecidableEq, Repr

/-- Modelled from the spec: ServiceMask (its header is not under src/) is a
bitset over the closed service enum {MASTER, BACKUP, MEMBERSHIP, PING,
ADMIN} (spec section 3.1). -/
structure ServiceMask where
  master : Bool := false
  backup : Bool := false
  membership : Bool := false
  ping : Bool := false
  admin : Bool := false
deriving DecidableEq, Repr

/-- The empty service mask. -/
def emptyMask : ServiceMask :=
  { master := false, backup := false, membership := false
    ping := false, admin := false }

/-- Two service masks intersect when they share at least one service
(spec section 6, serialization filter wording). -/
def ServiceMask.intersects (a b : ServiceMask) : Bool :=
  (a.master && b.master) || (a.backup && b.backup) ||
  (a.membership && b.membership) || (a.ping && b.ping) || (a.admin && b.admin)

/-- Coordinator-side record for one server (CoordinatorServerList::Entry,
which extends ServerDetails). -/
structure Entry where
  serverId : ServerId
  serviceLocator : String
  services : ServiceMask
  expectedReadMBytesPerSec : Nat
  status : ServerStatus
  replicationId : Nat
  masterRecoveryInfo : Nat
  serverListVersion : Nat
  isBeingUpdated : Nat
  serverInfoLogId : Nat
  serverUpdateLogId : Nat
deriving DecidableEq, Repr

/-- Entry::Entry(serverId, serviceLocator, services): an UP entry with all
bookkeeping fields zeroed (replicationId defaults to 0 in ServerDetails). -/
def Entry.make (serverId : ServerId) (serviceLocator : String)
    (services : ServiceMask) : Entry :=
  { serverId := serverId
    serviceLocator := serviceLocator
    services := services
    expectedReadMBytesPerSec := 0
    status := .up
    replicationId := 0
    masterRecoveryInfo := 0
    serverListVersion := 0
    isBeingUpdated := 0
    serverInfoLogId := 0
    serverUpdateLogId := 0 }

/-- Modelled from the spec: ServerDetails::isMaster (header not under src/).
A master is an UP entry offering the MASTER service (spec section 3.1:
numMasters counts entries with MASTER in services and status UP). -/
def Entry.isMaster (e : Entry) : Bool :=
  e.status = ServerStatus.up && e.services.master

/-- Modelled from the spec: ServerDetails::isBackup (header not under src/).
A backup is an UP entry offering the BACKUP service (spec sections 3.1 and
4.3: createReplicationGroup gathers all UP backups). -/
def Entry.isBackup (e : Entry) : Bool :=
  e.status = ServerStatus.up && e.services.backup

/-- One ProtoBuf::ServerList_Entry as produced by Entry::serialize. -/
structure EntryRecord where
  services : ServiceMask
  server_id : ServerId
  service_locator : String
  status : ServerStatus
  expected_read_mbytes_per_sec : Nat
  replication_id : Nat
deriving DecidableEq, Repr

/-- Entry::serialize: copy the public fields; the read speed is reported
only for backups (0 otherwise, because tests expect the field). -/
def Entry.serialize (e : Entry) : EntryRecord :=
  { services := e.services
    server_id := e.serverId
    service_locator := e.serviceLocator
    status := e.status
    expected_read_mbytes_per_sec :=
      if e.isBackup then e.expectedReadMBytesPerSec else 0
    replication_id := e.replicationId }

/-- Type tag of a serialized server list message. -/
inductive ServerListType where
  | fullList
  | update
deriving DecidableEq, Repr

/-- A ProtoBuf::ServerList message: entries plus version and type stamp. -/
structure ServerListMsg where
  servers : List EntryRecord
  version_number : Nat
  type : ServerListType
deriving DecidableEq, Repr

instance : Inhabited ServerListMsg := ⟨⟨[], 0, .fullList⟩⟩

/-- One slot of the coordinator server list: generation counter plus the
optional occupant.  Modelled from the spec: the per-slot generation counter
starts at 1 (spec section 3.1; scenario 1 issues id (1,1)). -/
structure Slot where
  nextGenerationNumber : Nat := 1
  entry : Option Entry := none
deriving DecidableEq, Repr

/-- A fresh, unoccupied slot (generation counter starts at 1). -/
def emptySlot : Slot := { nextGenerationNumber := 1, entry := none }

instance : Inhabited Slot := ⟨emptySlot⟩

/-- Change events delivered to registered trackers. -/
inductive ServerChangeEvent where
  | serverAdded
  | serverCrashed
  | serverRemoved
deriving DecidableEq, Repr

/-- Errors surfaced by the coordinator server list operations:
ServerListException (UnknownServer) and a failed C assert. -/
inductive CSLError where
  | unknownServer
  | assertFailed
deriving DecidableEq, Repr

/-- The CoordinatorServerList state.  `update` is the pending delta (the
class's buffered ProtoBuf), `updates` the queue of committed deltas,
`noUpdatesFound`, `searchIndex` and `minVersion` the lastScan cursor.
`events` records tracker notifications and `recoveryCalls` the
startMasterRecovery invocations (external collaborators). -/
structure CSL where
  serverList : List Slot
  numberOfMasters : Nat
  numberOfBackups : Nat
  version : Nat
  update : List EntryRecord
  updates : List ServerListMsg
  noUpdatesFound : Bool
  searchIndex : Nat
  minVersion : Nat
  nextReplicationId : Nat
  events : List (ServerChangeEvent × Entry)
  recoveryCalls : List Entry
deriving DecidableEq, Repr

/-- The state built by the constructor: empty list, version 0,
nextReplicationId 1. -/
def initState : CSL :=
  { serverList := []
    numberOfMasters := 0
    numberOfBackups := 0
    version := 0
    update := []
    updates := []
    noUpdatesFound := false
    searchIndex := 0
    minVersion := 0
    nextReplicationId := 1
    events := []
    recoveryCalls := [] }

/-- Read slot i; out-of-range reads yield the default (empty) slot, which
the code never dereferences without a bound check. -/
def listGetSlot (s : CSL) (i : Nat) : Slot :=
  s.serverList.getD i emptySlot

/-- CoordinatorServerList::iget(ServerId): the entry at the id's index if
it is occupied by exactly that id. -/
def iget (s : CSL) (id : ServerId) : Option Entry :=
  if id.index < s.serverList.length then
    match (listGetSlot s id.index).entry with
    | some e => if e.serverId = id then some e else none
    | none => none
  else none

/-- getReferenceFromServerId: like iget but throws on a miss. -/
def getRef (s : CSL) (id : ServerId) : Except CSLError Entry :=
  match iget s id with
  | some e => .ok e
  | none => .error .unknownServer

/-- getServerInfoLogId (throws if the id is not in the list). -/
def getServerInfoLogId (s : CSL) (id : ServerId) : Except CSLError Nat :=
  (getRef s id).map (·.serverInfoLogId)

/-- getServerUpdateLogId (throws if the id is not in the list). -/
def getServerUpdateLogId (s : CSL) (id : ServerId) : Except CSLError Nat :=
  (getRef s id).map (·.serverUpdateLogId)

/-- addServerInfoLogId: store a LogCabin entry id into the entry. -/
def addServerInfoLogId (s : CSL) (id : ServerId) (entryId : Nat) :
    Except CSLError CSL :=
  match iget s id with
  | none => .error .unknownServer
  | some e =>
    let slot1 := { listGetSlot s id.index with
                   entry := some { e with serverInfoLogId := entryId } }
    .ok { s with serverList := s.serverList.set id.index slot1 }

/-- std::vector::resize used by add and firstFreeIndex: pad with default
slots up to length n (the code only ever grows here). -/
def resizeSlots (l : List Slot) (n : Nat) : List Slot :=
  l ++ List.replicate (n - l.length) emptySlot

/-- CoordinatorServerList::add (the internal, lock-holding version):
resize if needed, overwrite the slot's generation counter, install an UP
entry, bump counters, append a delta record, fire SERVER_ADDED. -/
def add (s : CSL) (serverId : ServerId) (serviceLocator : String)
    (serviceMask : ServiceMask) (readSpeed : Nat) : CSL :=
  let index := serverId.index
  let l := if s.serverList.length ≤ index
           then resizeSlots s.serverList (index + 1) else s.serverList
  let e0 := Entry.make serverId serviceLocator serviceMask
  let e1 := if serviceMask.backup
            then { e0 with expectedReadMBytesPerSec := readSpeed } else e0
  let slot1 : Slot :=
    { nextGenerationNumber := serverId.generation + 1, entry := some e1 }
  { s with
    serverList := l.set index slot1
    numberOfMasters :=
      s.numberOfMasters + (if serviceMask.master then 1 else 0)
    numberOfBackups :=
      s.numberOfBackups + (if serviceMask.backup then 1 else 0)
    update := s.update ++ [e1.serialize]
    events := s.events ++ [(.serverAdded, e1)] }

/-- Decrement of a uint32_t counter (wraps at zero like the machine). -/
def dec32 (n : Nat) : Nat := (n + (2 ^ 32 - 1)) % 2 ^ 32

/-- CoordinatorServerList::crashed (internal version): no-op when already
CRASHED, UnknownServer when the id does not match the slot, a failed
assert on DOWN; otherwise UP -> CRASHED with counter updates, one delta
record and a SERVER_CRASHED tracker event. -/
def crashed (s : CSL) (serverId : ServerId) : Except CSLError CSL :=
  match iget s serverId with
  | none => .error .unknownServer
  | some e =>
    if e.status = .crashed then .ok s
    else if e.status = .down then .error .assertFailed
    else
      let e1 := { e with status := ServerStatus.crashed }
      let slot1 := { listGetSlot s serverId.index with entry := some e1 }
      .ok { s with
        serverList := s.serverList.set serverId.index slot1
        numberOfMasters :=
          if e.isMaster then dec32 s.numberOfMasters else s.numberOfMasters
        numberOfBackups :=
          if e.isBackup then dec32 s.numberOfBackups else s.numberOfBackups
        update := s.update ++ [e1.serialize]
        events := s.events ++ [(.serverCrashed, e1)] }

/-- CoordinatorServerList::remove (internal version): validity check,
crashed first (a no-op if already crashed), then mark DOWN, emit the final
delta record, destroy the slot's entry and fire SERVER_REMOVED with the
snapshot. -/
def remove (s : CSL) (serverId : ServerId) : Except CSLError CSL :=
  match iget s serverId with
  | none => .error .unknownServer
  | some e => do
    let s1 ← crashed s serverId
    let e2 := { e with status := ServerStatus.down }
    let slot1 := { listGetSlot s1 serverId.index with entry := none }
    .ok { s1 with
      serverList := s1.serverList.set serverId.index slot1
      update := s1.update ++ [e2.serialize]
      events := s1.events ++ [(.serverRemoved, e2)] }

/-- CoordinatorServerList::setReplicationId: only applies to UP entries
(throws on unknown ids); writes the id and appends an entry delta. -/
def setReplicationId (s : CSL) (serverId : ServerId) (replicationId : Nat) :
    Except CSLError CSL :=
  match iget s serverId with
  | none => .error .unknownServer
  | some e =>
    if e.status ≠ .up then .ok s
    else
      let e1 := { e with replicationId := replicationId }
      let slot1 := { listGetSlot s serverId.index with entry := some e1 }
      .ok { s with
        serverList := s.serverList.set serverId.index slot1
        update := s.update ++ [e1.serialize] }

/-- CoordinatorServerList::assignReplicationGroup: walk the group; abort
with false as soon as a member is not retrievable, otherwise set each
member's replication id in turn. -/
def assignReplicationGroup (s : CSL) (replicationId : Nat) :
    List ServerId → Except CSLError (CSL × Bool)
  | [] => .ok (s, true)
  | backupId :: rest =>
    if (iget s backupId).isNone then .ok (s, false)
    else do
      let s1 ← setReplicationId s backupId replicationId
      assignReplicationGroup s1 replicationId rest

/-- The gather loop of createReplicationGroup: all slots, in index order,
holding a backup with replicationId 0. -/
def freeBackupsScan (s : CSL) : List ServerId :=
  (List.range s.serverList.length).filterMap fun i =>
    match (listGetSlot s i).entry with
    | some e =>
      if e.isBackup && e.replicationId == 0 then some e.serverId else none
    | none => none

/-- The while loop of createReplicationGroup over the reversed candidate
vector: the C++ code pops three candidates off the BACK of freeBackups per
iteration, assigns them nextReplicationId and increments it. -/
def groupLoop : CSL → List ServerId → Except CSLError CSL
  | s, a :: b :: c :: rest => do
    let p ← assignReplicationGroup s s.nextReplicationId [a, b, c]
    groupLoop { p.1 with nextReplicationId := p.1.nextReplicationId + 1 } rest
  | s, _ => .ok s

/-- CoordinatorServerList::createReplicationGroup: gather the free backups,
then form groups of three from the back of the vector. -/
def createReplicationGroup (s : CSL) : Except CSLError CSL :=
  groupLoop s (freeBackupsScan s).reverse

/-- The slot loop of removeReplicationGroup.  The fuel argument counts the
remaining iterations; the loop bound isize() is invariant because no body
operation changes the list length.  Faithfully to the C++, the accumulated
group is re-assigned (replicationId 0) on EVERY later iteration once it is
non-empty. -/
def removeRGLoop (groupId : Nat) : Nat → Nat → CSL → List ServerId →
    Except CSLError CSL
  | 0, _, s, _ => .ok s
  | fuel + 1, i, s, group =>
    let group1 :=
      match (listGetSlot s i).entry with
      | some e =>
        if e.isBackup && e.replicationId == groupId
        then group ++ [e.serverId] else group
      | none => group
    if group1.isEmpty then removeRGLoop groupId fuel (i + 1) s group1
    else do
      let p ← assignReplicationGroup s 0 group1
      removeRGLoop groupId fuel (i + 1) p.1 group1

/-- CoordinatorServerList::removeReplicationGroup: reset the replication
id of the group's backups; groupId 0 is a no-op. -/
def removeReplicationGroup (s : CSL) (groupId : Nat) : Except CSLError CSL :=
  if groupId = 0 then .ok s
  else removeRGLoop groupId s.serverList.length 0 s []

/-- CoordinatorServerList::commitUpdate: empty pending deltas are ignored;
otherwise bump the version, stamp the delta UPDATE at the new version,
queue it, clear the pending delta and the no-updates-found flag. -/
def commitUpdate (s : CSL) : CSL :=
  if s.update.isEmpty then s
  else
    { s with
      version := s.version + 1
      updates := s.updates ++
        [{ servers := s.update
           version_number := s.version + 1
           type := .update }]
      noUpdatesFound := false
      update := [] }

/-- CoordinatorServerList::pruneUpdates: drop committed deltas at the front
whose version is at most the given watermark. -/
def pruneUpdates (s : CSL) (version : Nat) : CSL :=
  { s with updates :=
      s.updates.dropWhile fun m => decide (m.version_number ≤ version) }

/-- The scan loop of firstFreeIndex, starting at index 1.  The fuel is the
number of in-range indices still to inspect (the vector length is constant
during the scan). -/
def scanFree (l : List Slot) : Nat → Nat → Nat
  | 0, i => i
  | fuel + 1, i =>
    if (l.getD i emptySlot).entry.isNone then i else scanFree l fuel (i + 1)

/-- CoordinatorServerList::firstFreeIndex: smallest free index at least 1;
resize the vector when the scan runs off the end.  Never returns 0. -/
def firstFreeIndex (s : CSL) : CSL × Nat :=
  let index := scanFree s.serverList (s.serverList.length - 1) 1
  if s.serverList.length ≤ index then
    ({ s with serverList := resizeSlots s.serverList (index + 1) }, index)
  else (s, index)

/-- CoordinatorServerList::generateUniqueId (internal version): take the
first free index, issue (index, nextGeneration), bump the generation and
install a placeholder entry with empty locator and empty mask. -/
def generateUniqueId (s : CSL) : CSL × ServerId :=
  let p := firstFreeIndex s
  let slot := listGetSlot p.1 p.2
  let id : ServerId := ⟨p.2, slot.nextGenerationNumber⟩
  let slot1 : Slot := { nextGenerationNumber := slot.nextGenerationNumber + 1
                        entry := some (Entry.make id "" emptyMask) }
  ({ p.1 with serverList := p.1.serverList.set p.2 slot1 }, id)

/-- CoordinatorServerList::serialize(protoBuf, services): entries in slot
order whose MASTER or BACKUP service is also in the mask, stamped with the
current version and FULL_LIST. -/
def serializeList (s : CSL) (services : ServiceMask) : ServerListMsg :=
  { servers := s.serverList.foldl
      (fun acc slot =>
        match slot.entry with
        | some e =>
          if (e.services.master && services.master) ||
             (e.services.backup && services.backup)
          then acc ++ [e.serialize] else acc
        | none => acc) []
    version_number := s.version
    type := .fullList }

/-- CoordinatorServerList::serialize(protoBuf): the default mask is
MASTER_SERVICE plus BACKUP_SERVICE. -/
def serializeDefault (s : CSL) : ServerListMsg :=
  serializeList s { master := true, backup := true }

/-- CoordinatorServerList::updateEntryVersion: silently ignore unknown
ids; otherwise install the acknowledged version, clear isBeingUpdated and
re-arm the scan when the member is still behind. -/
def updateEntryVersion (s : CSL) (serverId : ServerId) (version : Nat) :
    CSL :=
  match iget s serverId with
  | none => s
  | some e =>
    let slot1 := { listGetSlot s serverId.index with
                   entry := some { e with serverListVersion := version
                                          isBeingUpdated := 0 } }
    let s1 := { s with serverList := s.serverList.set serverId.index slot1 }
    if version < s.version then { s1 with noUpdatesFound := false } else s1

/-- ForceServerDown::complete up to (and including) the replication-group
reset: read the log ids, snapshot the victim, crash it, remove it when it
hosted no master, notify master recovery, clear the victim's replication
group. -/
def forceServerDownReset (s : CSL) (serverId : ServerId) :
    Except CSLError CSL := do
  let _serverInfoLogId ← getServerInfoLogId s serverId
  let _serverUpdateLogId ← getServerUpdateLogId s serverId
  let entry ← getRef s serverId
  let s1 ← crashed s serverId
  let s2 ← if !entry.services.master then remove s1 serverId else .ok s1
  let s3 := { s2 with recoveryCalls := s2.recoveryCalls ++ [entry] }
  removeReplicationGroup s3 entry.replicationId

/-- ForceServerDown::complete: after the reset phase, try to form a fresh
replication group (the LogCabin invalidation is external). -/
def forceServerDownComplete (s : CSL) (serverId : ServerId) :
    Except CSLError CSL := do
  let s4 ← forceServerDownReset s serverId
  createReplicationGroup s4

/-- EnlistServer::execute followed by EnlistServer::complete: generate the
id, record the (modelled) log entry id, add the entry, form replication
groups when the newcomer is a backup, re-record the log id. -/
def enlistServerExecuteComplete (s : CSL) (serviceMask : ServiceMask)
    (readSpeed : Nat) (serviceLocator : String) :
    Except CSLError (CSL × ServerId) := do
  let p := generateUniqueId s
  let s2 ← addServerInfoLogId p.1 p.2 0
  let s3 := add s2 p.2 serviceLocator serviceMask readSpeed
  let entry ← getRef s3 p.2
  let s4 ← if entry.isBackup then createReplicationGroup s3 else .ok s3
  let s5 ← addServerInfoLogId s4 p.2 0
  .ok (s5, p.2)

/-- CoordinatorServerList::enlistServer: when the replaced id is still
present force it down first (so its removal delta precedes the addition),
then run the Enlist saga and commit the combined delta. -/
def enlistServer (s : CSL) (replacesId : ServerId)
    (serviceMask : ServiceMask) (readSpeed : Nat) (serviceLocator : String) :
    Except CSLError (CSL × ServerId) := do
  let s1 ← if (iget s replacesId).isSome
           then forceServerDownComplete s replacesId else .ok s
  let p ← enlistServerExecuteComplete s1 serviceMask readSpeed serviceLocator
  .ok (commitUpdate p.1, p.2)

/-- States reachable through the embedded public operations. -/
inductive Reachable : CSL → Prop
  | init : Reachable initState
  | addStep (s : CSL) (id : ServerId) (loc : String) (mask : ServiceMask)
      (r : Nat) : Reachable s → Reachable (commitUpdate (add s id loc mask r))
  | crashedStep (s : CSL) (id : ServerId) (s' : CSL) : Reachable s →
      crashed s id = .ok s' → Reachable (commitUpdate s')
  | removeStep (s : CSL) (id : ServerId) (s' : CSL) : Reachable s →
      remove s id = .ok s' → Reachable (commitUpdate s')
  | enlistStep (s : CSL) (rid : ServerId) (mask : ServiceMask) (r : Nat)
      (loc : String) (s' : CSL) (nid : ServerId) : Reachable s →
      enlistServer s rid mask r loc = .ok (s', nid) → Reachable s'
  | hintDownStep (s : CSL) (id : ServerId) (s' : CSL) : Reachable s →
      forceServerDownComplete s id = .ok s' → Reachable (commitUpdate s')
  | forceDownRecoverStep (s : CSL) (id : ServerId) (s' : CSL) : Reachable s →
      forceServerDownComplete s id = .ok s' → Reachable s'
  | genIdStep (s : CSL) : Reachable s → Reachable (generateUniqueId s).1
  | pruneStep (s : CSL) (v : Nat) : Reachable s → v ≤ s.version →
      Reachable (pruneUpdates s v)
  | updateVersionStep (s : CSL) (id : ServerId) (v : Nat) : Reachable s →
      Reachable (updateEntryVersion s id v)

/-- Well-formed list: every occupant sits at the slot its id names (the
spec's first global invariant). -/
def WF (s : CSL) : Prop :=
  ∀ i e, (listGetSlot s i).entry = some e → e.serverId.index = i

/-- Executable bounded check for WF (out-of-range slots are empty). -/
def wfCheck (s : CSL) : Bool :=
  (List.range s.serverList.length).all fun i =>
    match (listGetSlot s i).entry with
    | some e => e.serverId.index == i
    | none => true

/-- State components untouched by setReplicationId and the replication
group loops: the slot skeleton (length, occupancy and occupant ids), the
version, the committed queue, the event and recovery logs and the
counters; the pending delta only grows. -/
def RGShape (s s' : CSL) : Prop :=
  s'.serverList.length = s.serverList.length ∧
  (∀ k, ((listGetSlot s' k).entry).map (fun e => e.serverId) =
        ((listGetSlot s k).entry).map (fun e => e.serverId)) ∧
  (∃ t, s'.update = s.update ++ t) ∧
  s'.version = s.version ∧
  s'.updates = s.updates ∧
  s'.events = s.events ∧
  s'.recoveryCalls = s.recoveryCalls ∧
  s'.numberOfMasters = s.numberOfMasters ∧
  s'.numberOfBackups = s.numberOfBackups ∧
  s'.noUpdatesFound = s.noUpdatesFound ∧
  s'.searchIndex = s.searchIndex ∧
  s'.minVersion = s.minVersion

/-- The update-queue invariant: the queue never outgrows the version and
the committed versions are exactly the consecutive range ending at the
cluster version. -/
def QueueInv (s : CSL) : Prop :=
  s.updates.length ≤ s.version ∧
  s.updates.map (fun m => m.version_number) =
    List.range' (s.version + 1 - s.updates.length) s.updates.length

end RAMCloud

namespace RAMCloud

/-! ## Open-addressed hash index entry (OHI), modelled from the spec -/

/-- Error thrown by HashTable::Entry::pack. -/
inductive OHIError where
  | outOfRange
deriving DecidableEq, Repr

/-- HashTable::Entry::UnpackedEntry. -/
structure UnpackedEntry where
  hash : Nat
  chain : Bool
  ptr : Nat
deriving DecidableEq, Repr

/-- Modelled from the spec: HashTable::Entry::pack (HashTable.h is not
under src/; src/src/HashTableTest.cc exercises it).  A packed entry is the
64-bit word secondaryHash(16 bits) | chainFlag(1 bit) | reference(47
bits); packing refuses references whose value exceeds 47 bits with an
OutOfRange exception (spec sections 3.2 and 8). -/
def ohiPack (hash : Nat) (chain : Bool) (ptr : Nat) : Except OHIError Nat :=
  if 2 ^ 47 ≤ ptr then .error .outOfRange
  else .ok ((hash * 2 ^ 48 + (if chain then 2 ^ 47 else 0) + ptr) % 2 ^ 64)

/-- Modelled from the spec: HashTable::Entry::unpack splits the 64-bit
word back into (secondaryHash, chainFlag, reference). -/
def ohiUnpack (value : Nat) : UnpackedEntry :=
  { hash := value / 2 ^ 48
    chain := (value / 2 ^ 47) % 2 == 1
    ptr := value % 2 ^ 47 }

end RAMCloud

namespace RAMCloud

/-! ## Concrete states used by counterexamples and witnesses -/

/-- Mask offering only the MASTER service. -/
def maskMaster : ServiceMask := { master := true }

/-- Mask offering only the BACKUP service. -/
def maskBackup : ServiceMask := { backup := true }

/-- Mask offering only the MEMBERSHIP service. -/
def maskMembership : ServiceMask := { membership := true }

/-- Mask offering MASTER and BACKUP. -/
def maskMB : ServiceMask := { master := true, backup := true }

/-- The UP master enlisted by scenario 1 of the spec. -/
def entryM : Entry := Entry.make ⟨1, 1⟩ "tcp:1" maskMaster

/-- The state after scenario 1: one UP master at slot 1, version 1. -/
def sM : CSL :=
  { initState with
    serverList := [emptySlot, { nextGenerationNumber := 2, entry := some entryM }]
    numberOfMasters := 1
    version := 1 }

/-- An UP backup with read speed 100 at slot 1. -/
def entryB : Entry :=
  { Entry.make ⟨1, 1⟩ "tcp:1" maskBackup with expectedReadMBytesPerSec := 100 }

/-- A state holding one UP backup at slot 1, version 1. -/
def sB : CSL :=
  { initState with
    serverList := [emptySlot, { nextGenerationNumber := 2, entry := some entryB }]
    numberOfBackups := 1
    version := 1 }

/-- An ungrouped UP backup for slot i. -/
def backupEntry (i : Nat) : Entry :=
  { Entry.make ⟨i, 1⟩ "backup" maskBackup with expectedReadMBytesPerSec := 100 }

/-- An occupied slot holding backupEntry i. -/
def backupSlot (i : Nat) : Slot :=
  { nextGenerationNumber := 2, entry := some (backupEntry i) }

/-- Six ungrouped UP backups at slots 1..6. -/
def s6 : CSL :=
  { initState with
    serverList := [emptySlot, backupSlot 1, backupSlot 2, backupSlot 3,
                   backupSlot 4, backupSlot 5, backupSlot 6]
    numberOfBackups := 6 }

/-- An UP server at slot i with the given mask and replication group. -/
def groupedEntry (i rid : Nat) (m : ServiceMask) : Entry :=
  { Entry.make ⟨i, 1⟩ "grouped" m with replicationId := rid }

/-- One UP backup at slot 1 in replication group 7, with a trailing empty
slot so the removeReplicationGroup loop keeps iterating after gathering. -/
def s10 : CSL :=
  { initState with
    serverList := [emptySlot,
                   { nextGenerationNumber := 2
                     entry := some (groupedEntry 1 7 maskBackup) },
                   emptySlot]
    numberOfBackups := 1 }

/-- A MASTER+BACKUP victim in group 5 at slot 1 with an UP backup
groupmate at slot 2. -/
def sV : CSL :=
  { initState with
    serverList := [emptySlot,
                   { nextGenerationNumber := 2
                     entry := some (groupedEntry 1 5 maskMB) },
                   { nextGenerationNumber := 2
                     entry := some (groupedEntry 2 5 maskBackup) }]
    numberOfMasters := 1
    numberOfBackups := 2 }

/-- A membership-only UP server at slot 1. -/
def entryMem : Entry := Entry.make ⟨1, 1⟩ "mem" maskMembership

/-- A state holding only the membership-only server. -/
def sMem : CSL :=
  { initState with
    serverList := [emptySlot, { nextGenerationNumber := 2, entry := some entryMem }] }

/-- A state with a non-empty pending delta. -/
def sPend : CSL := { initState with update := [Entry.serialize entryM] }

/-- The state reached by one public add on the fresh coordinator. -/
def sOne : CSL := commitUpdate (add initState ⟨1, 1⟩ "tcp:1" maskMaster 0)

/-- The pending delta left by an operation (empty on error). -/
def pendingAfter (x : Except CSLError CSL) : List EntryRecord :=
  match x with
  | .ok s => s.update
  | .error _ => []

/-- The servers of the most recently committed delta after an enlist
(empty on error). -/
def lastDelta (x : Except CSLError (CSL × ServerId)) : List EntryRecord :=
  match x with
  | .ok p => (p.1.updates.getLast?.getD default).servers
  | .error _ => []

/-- The (server id, status) view of a delta record. -/
def statusPair (r : EntryRecord) : ServerId × ServerStatus :=
  (r.server_id, r.status)

/-- The replication id of the entry at slot i after an operation. -/
def ridAt (x : Except CSLError CSL) (i : Nat) : Option Nat :=
  match x with
  | .ok s => ((listGetSlot s i).entry).map (fun e => e.replicationId)
  | .error _ => none

end RAMCloud

namespace RAMCloud

/-! ## Generic list helpers -/

theorem getD_set_self {α : Type} (l : List α) (i : Nat) (a d : α)
    (h : i < l.length) : (l.set i a).getD i d = a := by
  simp [List.getD_eq_getElem?_getD, List.getElem?_set_self', h]

theorem getD_set_ne {α : Type} (l : List α) (i j : Nat) (a d : α)
    (h : j ≠ i) : (l.set i a).getD j d = l.getD j d := by
  simp [List.getD_eq_getElem?_getD, List.getElem?_set_ne (Ne.symm h)]

theorem exceptBind_ok {ε α β : Type} {x : Except ε α} {f : α → Except ε β}
    {b : β} (h : x >>= f = .ok b) : ∃ a, x = .ok a ∧ f a = .ok b := by
  cases x with
  | ok a => exact ⟨a, rfl, h⟩
  | error e => exact absurd h (by simp [Bind.bind, Except.bind])

theorem dropWhile_eq_drop {α : Type} (p : α → Bool) (l : List α) :
    ∃ k, k ≤ l.length ∧ l.dropWhile p = l.drop k := by
  induction l with
  | nil => exact ⟨0, by simp, rfl⟩
  | cons h t ih =>
    by_cases hp : p h
    · obtain ⟨k, hk, he⟩ := ih
      exact ⟨k + 1, by simpa using Nat.succ_le_succ hk,
        by simp [List.dropWhile, hp, he]⟩
    · exact ⟨0, by simp, by simp [List.dropWhile, hp]⟩

theorem drop_range' (a n k : Nat) :
    (List.range' a n).drop k = List.range' (a + k) (n - k) := by
  induction n generalizing a k with
  | zero => simp
  | succ m ih =>
    cases k with
    | zero => simp
    | succ k2 =>
      rw [List.range'_succ, List.drop_succ_cons, ih (a + 1) k2]
      have h1 : a + 1 + k2 = a + (k2 + 1) := by omega
      have h2 : m - k2 = m + 1 - (k2 + 1) := by omega
      rw [h1, h2]

/-! ## C1: commitUpdate -/

/-- C1: commitUpdate with an empty pending delta leaves the cluster
version, the update queue and the pending delta unchanged; with a
non-empty pending delta it increments the version by exactly 1, stamps
the delta with type UPDATE and the new version, appends it to the update
queue, clears the pending delta and clears the no-updates-found flag. -/
theorem commitUpdate_spec (s : CSL) :
    (s.update = [] → commitUpdate s = s) ∧
    (s.update ≠ [] →
      (commitUpdate s).version = s.version + 1 ∧
      (commitUpdate s).updates = s.updates ++
        [{ servers := s.update
           version_number := s.version + 1
           type := .update }] ∧
      (commitUpdate s).update = [] ∧
      (commitUpdate s).noUpdatesFound = false) := by
  constructor
  · intro h
    simp [commitUpdate, h]
  · intro h
    simp [commitUpdate, h]

/-- Witness for C1 at concrete states: the empty-delta case on the fresh
coordinator and the version bump on a state with one pending record. -/
theorem commitUpdate_spec_witness :
    commitUpdate initState = initState ∧
    (commitUpdate sPend).version = sPend.version + 1 :=
  ⟨(commitUpdate_spec initState).1 rfl,
   ((commitUpdate_spec sPend).2 (by decide)).1⟩

/-! ## C9: OHI entry pack/unpack -/

/-- C9: for every secondary hash up to 0xFFFF, every chain flag and every
pointer fitting in 47 bits, unpack inverts pack; pack fails with
OutOfRange for any pointer that does not fit in 47 bits. -/
theorem ohiPack_unpack_spec (hash ptr : Nat) (chain : Bool) :
    (hash ≤ 0xFFFF → ptr ≤ 0x7FFFFFFFFFFF →
      ∃ v, ohiPack hash chain ptr = .ok v ∧
        ohiUnpack v = ⟨hash, chain, ptr⟩) ∧
    (0x7FFFFFFFFFFF < ptr → ohiPack hash chain ptr = .error .outOfRange) := by
  constructor
  · intro hh hp
    have hlt : ¬ 2 ^ 47 ≤ ptr := by omega
    rw [ohiPack, if_neg hlt]
    refine ⟨_, rfl, ?_⟩
    rw [ohiUnpack]
    cases chain with
    | false =>
      simp only [Bool.false_eq_true, if_false, UnpackedEntry.mk.injEq]
      refine ⟨by omega, ?_, by omega⟩
      rw [beq_eq_false_iff_ne]
      omega
    | true =>
      simp only [eq_self_iff_true, if_true, UnpackedEntry.mk.injEq]
      refine ⟨by omega, ?_, by omega⟩
      rw [beq_iff_eq]
      omega
  · intro hp
    have hle : 2 ^ 47 ≤ ptr := by omega
    rw [ohiPack, if_pos hle]

/-- Witness for C9 at the concrete vector from the pack unit test. -/
theorem ohiPack_unpack_spec_witness :
    (∃ v, ohiPack 0xa257 false 0x3cdeadbeef98 = .ok v ∧
      ohiUnpack v = ⟨0xa257, false, 0x3cdeadbeef98⟩) ∧
    ohiPack 0 false 0xffffffffffff = .error .outOfRange :=
  ⟨(ohiPack_unpack_spec 0xa257 0x3cdeadbeef98 false).1 (by norm_num) (by norm_num),
   (ohiPack_unpack_spec 0 0xffffffffffff false).2 (by norm_num)⟩

/-! ## C10: removeReplicationGroup duplicate records -/

/-- C10: a single removeReplicationGroup call can append more than one
delta record for the same backup.  In s10 the only server is the backup
(1,1) in group 7; removing group 7 appends two identical records for it
(the reset is re-applied on the slot iteration after the one that
gathered it). -/
theorem removeReplicationGroup_duplicate_records :
    (pendingAfter (removeReplicationGroup s10 7)).countP
      (fun r => r.server_id == (⟨1, 1⟩ : ServerId) && r.replication_id == 0) = 2 ∧
    s10.serverList.countP (fun slot => slot.entry.isSome) = 1 := by
  constructor
  · decide
  · decide

/-! ## C4: serialize filter -/

/-- Counterexample to C4: the membership-only entry of sMem has services
intersecting the membership-only mask, yet serialize with that mask emits
no record for it (the code consults only the MASTER and BACKUP bits). -/
theorem serialize_intersect_counterexample :
    ServiceMask.intersects entryMem.services maskMembership = true ∧
    (listGetSlot sMem 1).entry = some entryMem ∧
    (serializeList sMem maskMembership).servers = [] := by
  refine ⟨by decide, by decide, by decide⟩

/-- The serialize fold appends exactly the filtered entries in slot
order, for any accumulator. -/
theorem serialize_foldl (services : ServiceMask) (l : List Slot)
    (acc : List EntryRecord) :
    (l.foldl
      (fun acc slot =>
        match slot.entry with
        | some e =>
          if (e.services.master && services.master) ||
             (e.services.backup && services.backup)
          then acc ++ [e.serialize] else acc
        | none => acc) acc) =
    acc ++ ((l.filterMap (fun slot => slot.entry)).filter
      (fun e => (e.services.master && services.master) ||
                (e.services.backup && services.backup))).map Entry.serialize := by
  induction l generalizing acc with
  | nil => simp
  | cons hd tl ih =>
    rw [List.foldl_cons, List.filterMap_cons]
    cases h : hd.entry with
    | none =>
      simp only [h]
      exact ih acc
    | some e =>
      simp only [h]
      by_cases hc : ((e.services.master && services.master) ||
                     (e.services.backup && services.backup)) = true
      · rw [if_pos hc, ih, List.filter_cons, if_pos hc]
        simp
      · rw [if_neg hc, ih, List.filter_cons, if_neg hc]

/-- C4 (amended): serialize(mask) includes exactly those occupied entries
whose MASTER service is in the mask or whose BACKUP service is in the
mask (only those two bits are consulted), in slot order, stamped with the
current cluster version and FULL_LIST; the default mask is
{MASTER, BACKUP}. -/
theorem serializeList_spec (s : CSL) (services : ServiceMask) :
    (serializeList s services).servers =
      ((s.serverList.filterMap (fun slot => slot.entry)).filter
        (fun e => (e.services.master && services.master) ||
                  (e.services.backup && services.backup))).map Entry.serialize ∧
    (serializeList s services).version_number = s.version ∧
    (serializeList s services).type = .fullList ∧
    serializeDefault s = serializeList s { master := true, backup := true } := by
  refine ⟨?_, rfl, rfl, rfl⟩
  exact serialize_foldl services s.serverList []

end RAMCloud

namespace RAMCloud

/-! ## iget and slot lemmas -/

theorem iget_eq_some_iff (s : CSL) (id : ServerId) (e : Entry) :
    iget s id = some e ↔
      id.index < s.serverList.length ∧
      (listGetSlot s id.index).entry = some e ∧ e.serverId = id := by
  rw [iget]
  by_cases h : id.index < s.serverList.length
  · rw [if_pos h]
    cases hq : (listGetSlot s id.index).entry with
    | none => simp [h]
    | some e0 =>
      by_cases he : e0.serverId = id
      · simp only [if_pos he]
        constructor
        · intro h2
          refine ⟨h, h2, ?_⟩
          injection h2 with h3
          rw [← h3]
          exact he
        · intro h2
          exact h2.2.1
      · simp only [if_neg he]
        constructor
        · intro h2
          exact absurd h2 (by simp)
        · intro h2
          injection h2.2.1 with h4
          exact absurd (h4 ▸ h2.2.2) he
  · rw [if_neg h]
    simp [h]

theorem iget_eq_none_iff (s : CSL) (id : ServerId) :
    iget s id = none ↔ ∀ e, iget s id ≠ some e := by
  cases h : iget s id with
  | none => simp
  | some e => simp [h]

theorem resizeSlots_length (l : List Slot) (n : Nat) :
    (resizeSlots l n).length = l.length + (n - l.length) := by
  simp [resizeSlots]

theorem getD_resize (l : List Slot) (n j : Nat) :
    (resizeSlots l n).getD j emptySlot = l.getD j emptySlot := by
  rw [resizeSlots]
  by_cases h : j < l.length
  · rw [List.getD_eq_getElem?_getD, List.getElem?_append_left h,
      ← List.getD_eq_getElem?_getD]
  · have hge : l.length ≤ j := by omega
    rw [List.getD_eq_getElem?_getD, List.getElem?_append_right hge,
      List.getElem?_replicate,
      List.getD_eq_getElem?_getD, List.getElem?_eq_none hge]
    split <;> rfl

/-! ## C7: generateUniqueId -/

theorem scanFree_ge (l : List Slot) (fuel : Nat) :
    ∀ i, i ≤ scanFree l fuel i := by
  induction fuel with
  | zero => intro i; rw [scanFree]
  | succ n ih =>
    intro i
    rw [scanFree]
    split
    · exact Nat.le_refl i
    · exact Nat.le_trans (by omega) (ih (i + 1))

theorem scanFree_occupied (l : List Slot) (fuel : Nat) :
    ∀ i j, i ≤ j → j < scanFree l fuel i →
      ((l.getD j emptySlot).entry).isSome := by
  induction fuel with
  | zero =>
    intro i j h1 h2
    rw [scanFree] at h2
    omega
  | succ n ih =>
    intro i j h1 h2
    rw [scanFree] at h2
    by_cases h : ((l.getD i emptySlot).entry).isNone
    · rw [if_pos h] at h2; omega
    · rw [if_neg h] at h2
      by_cases hj : j = i
      · subst hj
        cases hq : (l.getD j emptySlot).entry with
        | none =>
          rw [hq] at h
          simp at h
        | some e0 => rfl
      · exact ih (i + 1) j (by omega) h2

theorem scanFree_result_free (l : List Slot) (fuel : Nat) :
    ∀ i, l.length ≤ fuel + i →
      (l.getD (scanFree l fuel i) emptySlot).entry = none := by
  induction fuel with
  | zero =>
    intro i hl
    rw [scanFree, List.getD_eq_getElem?_getD, List.getElem?_eq_none (by omega)]
    rfl
  | succ n ih =>
    intro i hl
    rw [scanFree]
    by_cases h : ((l.getD i emptySlot).entry).isNone
    · rw [if_pos h]
      exact Option.isNone_iff_eq_none.mp h
    · rw [if_neg h]
      exact ih (i + 1) (by omega)

theorem firstFreeIndex_spec (s : CSL) :
    1 ≤ (firstFreeIndex s).2 ∧
    (∀ j, 1 ≤ j → j < (firstFreeIndex s).2 →
      ((listGetSlot s j).entry).isSome) ∧
    (listGetSlot s (firstFreeIndex s).2).entry = none ∧
    (∀ j, listGetSlot (firstFreeIndex s).1 j = listGetSlot s j) ∧
    (firstFreeIndex s).2 < (firstFreeIndex s).1.serverList.length ∧
    (∃ l, (firstFreeIndex s).1 = { s with serverList := l }) := by
  have hge := scanFree_ge s.serverList (s.serverList.length - 1) 1
  have hocc := scanFree_occupied s.serverList (s.serverList.length - 1)
  have hfree := scanFree_result_free s.serverList (s.serverList.length - 1) 1
    (by omega)
  rw [firstFreeIndex]
  by_cases h : s.serverList.length ≤ scanFree s.serverList (s.serverList.length - 1) 1
  · rw [if_pos h]
    refine ⟨hge, fun j h1 h2 => hocc 1 j h1 h2, hfree, ?_, ?_, ⟨_, rfl⟩⟩
    · intro j
      show (resizeSlots s.serverList _).getD j emptySlot = listGetSlot s j
      exact getD_resize s.serverList _ j
    · show scanFree s.serverList (s.serverList.length - 1) 1 <
        (resizeSlots s.serverList
          (scanFree s.serverList (s.serverList.length - 1) 1 + 1)).length
      rw [resizeSlots_length]
      omega
  · rw [if_neg h]
    refine ⟨hge, fun j h1 h2 => hocc 1 j h1 h2, hfree, fun j => rfl, ?_,
      ⟨s.serverList, by rfl⟩⟩
    show scanFree s.serverList (s.serverList.length - 1) 1 < s.serverList.length
    omega

/-- C7: generateUniqueId returns an id whose index is the smallest
unoccupied slot index at least 1 (never 0, growing the vector when no
in-range slot is free), whose generation is the slot's generation counter
before the call; the counter is incremented and a placeholder entry with
empty locator and empty mask is installed, leaving all other slots
unchanged. -/
theorem generateUniqueId_spec (s : CSL) :
    (generateUniqueId s).2.index ≠ 0 ∧
    1 ≤ (generateUniqueId s).2.index ∧
    (∀ j, 1 ≤ j → j < (generateUniqueId s).2.index →
      ((listGetSlot s j).entry).isSome) ∧
    (listGetSlot s (generateUniqueId s).2.index).entry = none ∧
    (generateUniqueId s).2.generation =
      (listGetSlot s (generateUniqueId s).2.index).nextGenerationNumber ∧
    listGetSlot (generateUniqueId s).1 (generateUniqueId s).2.index =
      { nextGenerationNumber := (generateUniqueId s).2.generation + 1
        entry := some (Entry.make (generateUniqueId s).2 "" emptyMask) } ∧
    (∀ j, j ≠ (generateUniqueId s).2.index →
      listGetSlot (generateUniqueId s).1 j = listGetSlot s j) ∧
    (generateUniqueId s).2.index < (generateUniqueId s).1.serverList.length := by
  obtain ⟨h1, h2, h3, h4, h5, l0, h6⟩ := firstFreeIndex_spec s
  have hidx : (generateUniqueId s).2.index = (firstFreeIndex s).2 := rfl
  have hgen : (generateUniqueId s).2.generation =
      (listGetSlot (firstFreeIndex s).1 (firstFreeIndex s).2).nextGenerationNumber :=
    rfl
  have hstate : (generateUniqueId s).1 =
      { (firstFreeIndex s).1 with
        serverList := (firstFreeIndex s).1.serverList.set (firstFreeIndex s).2
          { nextGenerationNumber :=
              (listGetSlot (firstFreeIndex s).1 (firstFreeIndex s).2).nextGenerationNumber + 1
            entry := some (Entry.make (generateUniqueId s).2 "" emptyMask) } } :=
    rfl
  refine ⟨by omega, by rw [hidx]; exact h1, ?_, ?_, ?_, ?_, ?_, ?_⟩
  · intro j hj1 hj2
    exact h2 j hj1 (by rw [hidx] at hj2; exact hj2)
  · rw [hidx]; exact h3
  · rw [hgen, hidx, h4]
  · rw [hstate, hidx, hgen]
    show ((firstFreeIndex s).1.serverList.set (firstFreeIndex s).2 _).getD
      (firstFreeIndex s).2 emptySlot = _
    rw [getD_set_self _ _ _ _ h5]
  · intro j hj
    rw [hstate]
    show ((firstFreeIndex s).1.serverList.set (firstFreeIndex s).2 _).getD
      j emptySlot = _
    rw [getD_set_ne _ _ _ _ _ (by rw [hidx] at hj; exact hj)]
    exact h4 j
  · rw [hstate, hidx]
    simp only [List.length_set]
    exact h5

/-- Witness for C7 at sM: slot 1 is occupied so the issued index is 2,
and slot 0 is left unchanged. -/
theorem generateUniqueId_spec_witness :
    ((listGetSlot sM 1).entry).isSome ∧
    listGetSlot (generateUniqueId sM).1 0 = listGetSlot sM 0 :=
  ⟨(generateUniqueId_spec sM).2.2.1 1 (by decide) (by decide),
   (generateUniqueId_spec sM).2.2.2.2.2.2.1 0 (by decide)⟩

end RAMCloud

namespace RAMCloud

/-! ## C6: crashed -/

theorem dec32_pos (n : Nat) (h0 : 0 < n) (h32 : n < 2 ^ 32) :
    dec32 n = n - 1 := by
  rw [dec32]
  omega

/-- C6: crashed is a no-op when the entry is already CRASHED; it fails
with UnknownServer (no state to change) when the id does not match the
slot's current entry; on a DOWN entry the assert fires; on an UP entry it
sets the status to CRASHED, decrements the master counter iff the entry
has MASTER service and the backup counter iff it has BACKUP service,
appends one delta record for the (now CRASHED) entry and fires a
SERVER_CRASHED event, leaving every other slot, the version and the
update queue unchanged. -/
theorem crashed_spec (s : CSL) (id : ServerId) :
    (∀ e, iget s id = some e → e.status = .crashed → crashed s id = .ok s) ∧
    (iget s id = none → crashed s id = .error .unknownServer) ∧
    (∀ e, iget s id = some e → e.status = .down →
      crashed s id = .error .assertFailed) ∧
    (∀ e, iget s id = some e → e.status = .up →
      ∃ s', crashed s id = .ok s' ∧
        (listGetSlot s' id.index).entry =
          some { e with status := ServerStatus.crashed } ∧
        (∀ j, j ≠ id.index → listGetSlot s' j = listGetSlot s j) ∧
        s'.numberOfMasters =
          (if e.services.master then dec32 s.numberOfMasters
           else s.numberOfMasters) ∧
        s'.numberOfBackups =
          (if e.services.backup then dec32 s.numberOfBackups
           else s.numberOfBackups) ∧
        (e.services.master = true → 0 < s.numberOfMasters →
          s.numberOfMasters < 2 ^ 32 →
          s'.numberOfMasters = s.numberOfMasters - 1) ∧
        (e.services.backup = true → 0 < s.numberOfBackups →
          s.numberOfBackups < 2 ^ 32 →
          s'.numberOfBackups = s.numberOfBackups - 1) ∧
        s'.update = s.update ++
          [Entry.serialize { e with status := ServerStatus.crashed }] ∧
        s'.events = s.events ++
          [(ServerChangeEvent.serverCrashed,
            { e with status := ServerStatus.crashed })] ∧
        s'.version = s.version ∧ s'.updates = s.updates) := by
  refine ⟨?_, ?_, ?_, ?_⟩
  · intro e hi hst
    simp only [crashed, hi, if_pos hst]
  · intro hi
    simp only [crashed, hi]
  · intro e hi hst
    simp only [crashed, hi]
    rw [if_neg (by rw [hst]; decide), if_pos hst]
  · intro e hi hup
    have hlt := ((iget_eq_some_iff s id e).mp hi).1
    have hm : e.isMaster = e.services.master := by
      simp [Entry.isMaster, hup]
    have hb : e.isBackup = e.services.backup := by
      simp [Entry.isBackup, hup]
    simp only [crashed, hi]
    rw [if_neg (by rw [hup]; decide), if_neg (by rw [hup]; decide)]
    refine ⟨_, rfl, ?_, ?_, ?_, ?_, ?_, ?_, rfl, rfl, rfl, rfl⟩
    · simp only [listGetSlot]
      rw [getD_set_self _ _ _ _ hlt]
    · intro j hj
      simp only [listGetSlot]
      rw [getD_set_ne _ _ _ _ _ hj]
    · rw [hm]
    · rw [hb]
    · intro hsm h0 h32
      show (if e.isMaster then dec32 s.numberOfMasters
            else s.numberOfMasters) = s.numberOfMasters - 1
      rw [hm, if_pos hsm, dec32_pos _ h0 h32]
    · intro hsb h0 h32
      show (if e.isBackup then dec32 s.numberOfBackups
            else s.numberOfBackups) = s.numberOfBackups - 1
      rw [hb, if_pos hsb, dec32_pos _ h0 h32]

/-- Witness for C6 at sM: crashing the UP master (1,1). -/
theorem crashed_spec_witness :
    ∃ s', crashed sM ⟨1, 1⟩ = .ok s' ∧
      (listGetSlot s' 1).entry =
        some { entryM with status := ServerStatus.crashed } ∧
      (∀ j, j ≠ 1 → listGetSlot s' j = listGetSlot sM j) ∧
      s'.numberOfMasters =
        (if entryM.services.master then dec32 sM.numberOfMasters
         else sM.numberOfMasters) ∧
      s'.numberOfBackups =
        (if entryM.services.backup then dec32 sM.numberOfBackups
         else sM.numberOfBackups) ∧
      (entryM.services.master = true → 0 < sM.numberOfMasters →
        sM.numberOfMasters < 2 ^ 32 →
        s'.numberOfMasters = sM.numberOfMasters - 1) ∧
      (entryM.services.backup = true → 0 < sM.numberOfBackups →
        sM.numberOfBackups < 2 ^ 32 →
        s'.numberOfBackups = sM.numberOfBackups - 1) ∧
      s'.update = sM.update ++
        [Entry.serialize { entryM with status := ServerStatus.crashed }] ∧
      s'.events = sM.events ++
        [(ServerChangeEvent.serverCrashed,
          { entryM with status := ServerStatus.crashed })] ∧
      s'.version = sM.version ∧ s'.updates = sM.updates :=
  (crashed_spec sM ⟨1, 1⟩).2.2.2 entryM (by decide) rfl

end RAMCloud

namespace RAMCloud

/-! ## Shape lemmas for the replication-group machinery -/

theorem okBind {ε α β : Type} (a : α) (f : α → Except ε β) :
    (Except.ok a : Except ε α) >>= f = f a := rfl

theorem rgshape_refl (s : CSL) : RGShape s s :=
  ⟨rfl, fun _ => rfl, ⟨[], by simp⟩, rfl, rfl, rfl, rfl, rfl, rfl, rfl, rfl, rfl⟩

theorem rgshape_trans {s1 s2 s3 : CSL} (h1 : RGShape s1 s2)
    (h2 : RGShape s2 s3) : RGShape s1 s3 := by
  obtain ⟨a1, a2, ⟨t1, a3⟩, a4, a5, a6, a7, a8, a9, a10, a11, a12⟩ := h1
  obtain ⟨b1, b2, ⟨t2, b3⟩, b4, b5, b6, b7, b8, b9, b10, b11, b12⟩ := h2
  refine ⟨b1.trans a1, fun k => (b2 k).trans (a2 k), ⟨t1 ++ t2, ?_⟩,
    b4.trans a4, b5.trans a5, b6.trans a6, b7.trans a7, b8.trans a8,
    b9.trans a9, b10.trans a10, b11.trans a11, b12.trans a12⟩
  rw [b3, a3, List.append_assoc]

theorem iget_congr (s s' : CSL) (id : ServerId)
    (hlen : s'.serverList.length = s.serverList.length)
    (hslot : listGetSlot s' id.index = listGetSlot s id.index) :
    iget s' id = iget s id := by
  rw [iget, iget, hlen, hslot]

theorem rgshape_iget_isSome {s s' : CSL} (h : RGShape s s') (id : ServerId) :
    (iget s' id).isSome = (iget s id).isSome := by
  obtain ⟨hlen, hmap, -⟩ := h
  rw [iget, iget, hlen]
  by_cases hl : id.index < s.serverList.length
  · rw [if_pos hl, if_pos hl]
    have := hmap id.index
    cases h1 : (listGetSlot s' id.index).entry with
    | none =>
      cases h2 : (listGetSlot s id.index).entry with
      | none => rfl
      | some e2 => rw [h1, h2] at this; exact absurd this (by simp)
    | some e1 =>
      cases h2 : (listGetSlot s id.index).entry with
      | none => rw [h1, h2] at this; exact absurd this (by simp)
      | some e2 =>
        rw [h1, h2] at this
        have hid : e1.serverId = e2.serverId := by
          simpa using this
        by_cases he : e2.serverId = id
        · simp [hid, he]
        · simp [hid, he]
  · rw [if_neg hl, if_neg hl]

/-! ### setReplicationId -/

theorem setRep_err {s : CSL} {id : ServerId} (r : Nat)
    (hi : iget s id = none) :
    setReplicationId s id r = .error .unknownServer := by
  simp only [setReplicationId, hi]

theorem setRep_skip {s : CSL} {id : ServerId} {e : Entry} (r : Nat)
    (hi : iget s id = some e) (hnu : e.status ≠ .up) :
    setReplicationId s id r = .ok s := by
  simp only [setReplicationId, hi, if_pos hnu]

theorem setRep_up {s : CSL} {id : ServerId} {e : Entry} (r : Nat)
    (hi : iget s id = some e) (hu : e.status = .up) :
    setReplicationId s id r = .ok
      { s with
        serverList := s.serverList.set id.index
          { listGetSlot s id.index with
            entry := some { e with replicationId := r } }
        update := s.update ++
          [Entry.serialize { e with replicationId := r }] } := by
  simp only [setReplicationId, hi]
  rw [if_neg (by simp [hu])]

theorem setRep_rgshape {s s' : CSL} {id : ServerId} {r : Nat}
    (h : setReplicationId s id r = .ok s') : RGShape s s' := by
  cases hi : iget s id with
  | none => rw [setRep_err r hi] at h; exact absurd h (by simp)
  | some e =>
    by_cases hu : e.status = .up
    · rw [setRep_up r hi hu] at h
      injection h with h1
      rw [← h1]
      have hlt := ((iget_eq_some_iff s id e).mp hi).1
      have hslot := ((iget_eq_some_iff s id e).mp hi).2.1
      refine ⟨by simp, ?_, ⟨_, rfl⟩, rfl, rfl, rfl, rfl, rfl, rfl, rfl, rfl, rfl⟩
      intro k
      by_cases hk : k = id.index
      · subst hk
        simp only [listGetSlot] at hslot ⊢
        rw [getD_set_self _ _ _ _ hlt, hslot]
        rfl
      · simp only [listGetSlot]
        rw [getD_set_ne _ _ _ _ _ hk]
    · rw [setRep_skip r hi hu] at h
      injection h with h1
      rw [← h1]
      exact rgshape_refl s

/-! ### assignReplicationGroup -/

theorem assignRG_ok (r : Nat) (g : List ServerId) :
    ∀ s, ∃ p, assignReplicationGroup s r g = .ok p ∧ RGShape s p.1 := by
  induction g with
  | nil =>
    intro s
    exact ⟨(s, true), rfl, rgshape_refl s⟩
  | cons id rest ih =>
    intro s
    rw [assignReplicationGroup]
    by_cases hn : (iget s id).isNone
    · rw [if_pos hn]
      exact ⟨(s, false), rfl, rgshape_refl s⟩
    · rw [if_neg hn]
      cases hi : iget s id with
      | none => rw [hi] at hn; exact absurd rfl hn
      | some e =>
        by_cases hu : e.status = .up
        · rw [setRep_up r hi hu, okBind]
          obtain ⟨p, hp, hsh⟩ := ih _
          refine ⟨p, hp, rgshape_trans ?_ hsh⟩
          exact setRep_rgshape (setRep_up r hi hu)
        · rw [setRep_skip r hi hu, okBind]
          obtain ⟨p, hp, hsh⟩ := ih s
          exact ⟨p, hp, hsh⟩

/-! ### groupLoop and removeRGLoop -/

theorem rgshape_nextRid (x : CSL) (n : Nat) :
    RGShape x { x with nextReplicationId := n } :=
  ⟨rfl, fun _ => rfl, ⟨[], by simp⟩, rfl, rfl, rfl, rfl, rfl, rfl, rfl, rfl, rfl⟩

theorem groupLoop_ok (s : CSL) (g : List ServerId) :
    ∃ s', groupLoop s g = .ok s' ∧ RGShape s s' := by
  induction s, g using groupLoop.induct with
  | case1 s a b c rest ih =>
    obtain ⟨p, hp, hsh⟩ := assignRG_ok s.nextReplicationId [a, b, c] s
    rw [groupLoop, hp, okBind]
    obtain ⟨s', h1, h2⟩ := ih p
    refine ⟨s', h1, rgshape_trans hsh (rgshape_trans ?_ h2)⟩
    exact rgshape_nextRid p.1 (p.1.nextReplicationId + 1)
  | case2 t s ht =>
    cases t with
    | nil => exact ⟨s, rfl, rgshape_refl s⟩
    | cons a t1 =>
      cases t1 with
      | nil => exact ⟨s, rfl, rgshape_refl s⟩
      | cons b t2 =>
        cases t2 with
        | nil => exact ⟨s, rfl, rgshape_refl s⟩
        | cons c rest => exact (ht a b c rest rfl).elim

theorem removeRGLoop_ok (gid : Nat) :
    ∀ (fuel i : Nat) (s : CSL) (group : List ServerId),
      ∃ s', removeRGLoop gid fuel i s group = .ok s' ∧ RGShape s s' := by
  intro fuel
  induction fuel with
  | zero =>
    intro i s group
    exact ⟨s, rfl, rgshape_refl s⟩
  | succ n ih =>
    intro i s group
    rw [removeRGLoop]
    split
    · exact ih (i + 1) s _
    · obtain ⟨p, hp, hsh⟩ := assignRG_ok 0 _ s
      rw [hp, okBind]
      obtain ⟨s', hs', hsh2⟩ := ih (i + 1) p.1 _
      exact ⟨s', hs', rgshape_trans hsh hsh2⟩

theorem createRG_ok (s : CSL) :
    ∃ s', createReplicationGroup s = .ok s' ∧ RGShape s s' := by
  rw [createReplicationGroup]
  exact groupLoop_ok s _

theorem removeRG_ok (s : CSL) (gid : Nat) :
    ∃ s', removeReplicationGroup s gid = .ok s' ∧ RGShape s s' := by
  rw [removeReplicationGroup]
  split
  · exact ⟨s, rfl, rgshape_refl s⟩
  · exact removeRGLoop_ok gid _ 0 s []

end RAMCloud

namespace RAMCloud

/-! ## Composition lemmas for the lifecycle operations -/

theorem getRef_ok (s : CSL) (id : ServerId) (e : Entry)
    (hi : iget s id = some e) : getRef s id = .ok e := by
  simp [getRef, hi]

theorem getInfoLogId_ok (s : CSL) (id : ServerId) (e : Entry)
    (hi : iget s id = some e) :
    getServerInfoLogId s id = .ok e.serverInfoLogId := by
  simp [getServerInfoLogId, getRef, hi, Except.map]

theorem getUpdateLogId_ok (s : CSL) (id : ServerId) (e : Entry)
    (hi : iget s id = some e) :
    getServerUpdateLogId s id = .ok e.serverUpdateLogId := by
  simp [getServerUpdateLogId, getRef, hi, Except.map]

theorem crashed_up_eq (s : CSL) (id : ServerId) (e : Entry)
    (hi : iget s id = some e) (hup : e.status = .up) :
    crashed s id = .ok
      { s with
        serverList := s.serverList.set id.index
          { listGetSlot s id.index with
            entry := some { e with status := ServerStatus.crashed } }
        numberOfMasters :=
          if e.isMaster then dec32 s.numberOfMasters else s.numberOfMasters
        numberOfBackups :=
          if e.isBackup then dec32 s.numberOfBackups else s.numberOfBackups
        update := s.update ++
          [Entry.serialize { e with status := ServerStatus.crashed }]
        events := s.events ++
          [(ServerChangeEvent.serverCrashed,
            { e with status := ServerStatus.crashed })] } := by
  simp only [crashed, hi]
  rw [if_neg (by rw [hup]; decide), if_neg (by rw [hup]; decide)]

theorem crashed_noop_eq (s : CSL) (id : ServerId) (e : Entry)
    (hi : iget s id = some e) (hc : e.status = .crashed) :
    crashed s id = .ok s := by
  simp only [crashed, hi, if_pos hc]

theorem remove_of_crashed_eq (s : CSL) (id : ServerId) (e : Entry)
    (hi : iget s id = some e) (hc : e.status = .crashed) :
    remove s id = .ok
      { s with
        serverList := s.serverList.set id.index
          { listGetSlot s id.index with entry := none }
        update := s.update ++
          [Entry.serialize { e with status := ServerStatus.down }]
        events := s.events ++
          [(ServerChangeEvent.serverRemoved,
            { e with status := ServerStatus.down })] } := by
  simp only [remove, hi]
  rw [crashed_noop_eq s id e hi hc, okBind]

theorem add_index_lt (s : CSL) (id : ServerId) (loc : String)
    (mask : ServiceMask) (r : Nat) :
    id.index < (add s id loc mask r).serverList.length := by
  simp only [add]
  rw [List.length_set]
  split
  · rw [resizeSlots_length]; omega
  · omega

theorem add_slot_self (s : CSL) (id : ServerId) (loc : String)
    (mask : ServiceMask) (r : Nat) :
    listGetSlot (add s id loc mask r) id.index =
      { nextGenerationNumber := id.generation + 1
        entry := some (if mask.backup
          then { Entry.make id loc mask with expectedReadMBytesPerSec := r }
          else Entry.make id loc mask) } := by
  have hlen : id.index <
      (if s.serverList.length ≤ id.index
       then resizeSlots s.serverList (id.index + 1)
       else s.serverList).length := by
    split
    · rw [resizeSlots_length]; omega
    · omega
  simp only [add, listGetSlot]
  rw [getD_set_self _ _ _ _ hlen]

theorem add_iget (s : CSL) (id : ServerId) (loc : String)
    (mask : ServiceMask) (r : Nat) :
    ∃ e1, iget (add s id loc mask r) id = some e1 ∧
      e1.serverId = id ∧ e1.status = .up ∧ e1.isBackup = mask.backup := by
  refine ⟨_, (iget_eq_some_iff _ _ _).mpr
    ⟨add_index_lt s id loc mask r, by rw [add_slot_self], ?_⟩, ?_, ?_, ?_⟩
  all_goals by_cases hb : mask.backup <;>
    simp [hb, Entry.make, Entry.isBackup]

theorem add_update_shape (s : CSL) (id : ServerId) (loc : String)
    (mask : ServiceMask) (r : Nat) :
    ∃ rec, (add s id loc mask r).update = s.update ++ [rec] ∧
      rec.server_id = id ∧ rec.status = .up := by
  by_cases hb : mask.backup
  · refine ⟨Entry.serialize
      { Entry.make id loc mask with expectedReadMBytesPerSec := r },
      ?_, rfl, rfl⟩
    simp only [add, hb, eq_self_iff_true, ite_true]
  · have hb2 : mask.backup = false := by simpa using hb
    refine ⟨Entry.serialize (Entry.make id loc mask), ?_, rfl, rfl⟩
    simp only [add, hb2, Bool.false_eq_true, ite_false]

theorem add_vu (s : CSL) (id : ServerId) (loc : String)
    (mask : ServiceMask) (r : Nat) :
    (add s id loc mask r).version = s.version ∧
    (add s id loc mask r).updates = s.updates ∧
    (add s id loc mask r).recoveryCalls = s.recoveryCalls :=
  ⟨rfl, rfl, rfl⟩

theorem addInfo_ok_fields (s : CSL) (id : ServerId) (n : Nat)
    (h : (iget s id).isSome) :
    ∃ s2, addServerInfoLogId s id n = .ok s2 ∧
      s2.version = s.version ∧ s2.updates = s.updates ∧
      s2.update = s.update ∧ s2.recoveryCalls = s.recoveryCalls ∧
      s2.events = s.events := by
  cases hi : iget s id with
  | none => rw [hi] at h; simp at h
  | some e =>
    have heq : addServerInfoLogId s id n = .ok
        { s with
          serverList := s.serverList.set id.index
            { listGetSlot s id.index with
              entry := some { e with serverInfoLogId := n } } } := by
      simp only [addServerInfoLogId, hi]
    exact ⟨_, heq, rfl, rfl, rfl, rfl, rfl⟩

theorem generateUniqueId_fields (s : CSL) :
    (generateUniqueId s).1.version = s.version ∧
    (generateUniqueId s).1.updates = s.updates ∧
    (generateUniqueId s).1.update = s.update ∧
    (generateUniqueId s).1.recoveryCalls = s.recoveryCalls ∧
    (generateUniqueId s).1.events = s.events := by
  obtain ⟨-, -, -, -, -, l0, h6⟩ := firstFreeIndex_spec s
  refine ⟨?_, ?_, ?_, ?_, ?_⟩
  · show (firstFreeIndex s).1.version = s.version
    rw [h6]
  · show (firstFreeIndex s).1.updates = s.updates
    rw [h6]
  · show (firstFreeIndex s).1.update = s.update
    rw [h6]
  · show (firstFreeIndex s).1.recoveryCalls = s.recoveryCalls
    rw [h6]
  · show (firstFreeIndex s).1.events = s.events
    rw [h6]

theorem generateUniqueId_iget_self (s : CSL) :
    iget (generateUniqueId s).1 (generateUniqueId s).2 =
      some (Entry.make (generateUniqueId s).2 "" emptyMask) := by
  obtain ⟨-, -, -, -, -, h6, -, h8⟩ := generateUniqueId_spec s
  exact (iget_eq_some_iff _ _ _).mpr ⟨h8, by rw [h6], rfl⟩

end RAMCloud

namespace RAMCloud

/-! ## ForceServerDown composition -/

theorem crashed_up_fields (s : CSL) (id : ServerId) (e : Entry)
    (hi : iget s id = some e) (hup : e.status = .up) :
    ∃ sc, crashed s id = .ok sc ∧
      sc.serverList = s.serverList.set id.index
        { listGetSlot s id.index with
          entry := some { e with status := ServerStatus.crashed } } ∧
      sc.update = s.update ++
        [Entry.serialize { e with status := ServerStatus.crashed }] ∧
      sc.version = s.version ∧ sc.updates = s.updates ∧
      sc.recoveryCalls = s.recoveryCalls :=
  ⟨_, crashed_up_eq s id e hi hup, rfl, rfl, rfl, rfl, rfl⟩

theorem remove_of_crashed_fields (s : CSL) (id : ServerId) (e : Entry)
    (hi : iget s id = some e) (hc : e.status = .crashed) :
    ∃ sr, remove s id = .ok sr ∧
      sr.serverList = s.serverList.set id.index
        { listGetSlot s id.index with entry := none } ∧
      sr.update = s.update ++
        [Entry.serialize { e with status := ServerStatus.down }] ∧
      sr.version = s.version ∧ sr.updates = s.updates ∧
      sr.recoveryCalls = s.recoveryCalls :=
  ⟨_, remove_of_crashed_eq s id e hi hc, rfl, rfl, rfl, rfl, rfl⟩

theorem forceReset_eq (s : CSL) (id : ServerId) (e : Entry)
    (hi : iget s id = some e) (hup : e.status = .up) :
    ∃ s2 : CSL,
      forceServerDownReset s id =
        removeReplicationGroup
          { s2 with recoveryCalls := s2.recoveryCalls ++ [e] }
          e.replicationId ∧
      s2.serverList.length = s.serverList.length ∧
      (listGetSlot s2 id.index).entry =
        (if e.services.master = true
         then some { e with status := ServerStatus.crashed } else none) ∧
      (∀ j, j ≠ id.index → listGetSlot s2 j = listGetSlot s j) ∧
      (∃ cd, s2.update = s.update ++ cd ∧
        (e.services.master = false →
          cd = [Entry.serialize { e with status := ServerStatus.crashed },
                Entry.serialize { e with status := ServerStatus.down }])) ∧
      s2.version = s.version ∧ s2.updates = s.updates ∧
      s2.recoveryCalls = s.recoveryCalls := by
  have hlt := ((iget_eq_some_iff s id e).mp hi).1
  have hsid := ((iget_eq_some_iff s id e).mp hi).2.2
  obtain ⟨sc, hcr, hcl, hcp, hcv, hcU, hcR⟩ := crashed_up_fields s id e hi hup
  have hclen : sc.serverList.length = s.serverList.length := by
    rw [hcl, List.length_set]
  have hcslot : listGetSlot sc id.index =
      { listGetSlot s id.index with
        entry := some { e with status := ServerStatus.crashed } } := by
    simp only [listGetSlot, hcl]
    rw [getD_set_self _ _ _ _ hlt]
  have hcframe : ∀ j, j ≠ id.index → listGetSlot sc j = listGetSlot s j := by
    intro j hj
    simp only [listGetSlot, hcl]
    rw [getD_set_ne _ _ _ _ _ hj]
  have hciget : iget sc id = some { e with status := ServerStatus.crashed } :=
    (iget_eq_some_iff _ _ _).mpr
      ⟨by rw [hclen]; exact hlt, by rw [hcslot], hsid⟩
  simp only [forceServerDownReset]
  rw [getInfoLogId_ok s id e hi, okBind, getUpdateLogId_ok s id e hi, okBind,
    getRef_ok s id e hi, okBind, hcr, okBind]
  by_cases hm : e.services.master = true
  · rw [if_neg (by rw [hm]; decide), okBind]
    refine ⟨sc, rfl, hclen, ?_, hcframe, ⟨_, hcp, ?_⟩, hcv, hcU, hcR⟩
    · rw [if_pos hm, hcslot]
    · intro hmf
      rw [hm] at hmf
      cases hmf
  · have hmf : e.services.master = false := by
      simpa using hm
    rw [if_pos (by rw [hmf]; decide)]
    obtain ⟨sr, hrm, hrl, hrp, hrv, hrU, hrR⟩ :=
      remove_of_crashed_fields sc id { e with status := ServerStatus.crashed }
        hciget rfl
    rw [hrm, okBind]
    refine ⟨sr, rfl, ?_, ?_, ?_, ?_, ?_, ?_, ?_⟩
    · rw [hrl, List.length_set, hclen]
    · rw [if_neg (by rw [hmf]; decide)]
      simp only [listGetSlot, hrl]
      rw [getD_set_self _ _ _ _ (by rw [hclen]; exact hlt)]
    · intro j hj
      simp only [listGetSlot, hrl]
      rw [getD_set_ne _ _ _ _ _ hj]
      exact hcframe j hj
    · refine ⟨Entry.serialize { e with status := ServerStatus.crashed } ::
        [Entry.serialize { e with status := ServerStatus.down }], ?_, ?_⟩
      · rw [hrp, hcp, List.append_assoc]
        rfl
      · intro
        rfl
    · rw [hrv, hcv]
    · rw [hrU, hcU]
    · rw [hrR, hcR]

theorem forceComplete_ok_update (s : CSL) (id : ServerId) (e : Entry)
    (hi : iget s id = some e) (hup : e.status = .up)
    (hm : e.services.master = false) :
    ∃ s' t, forceServerDownComplete s id = .ok s' ∧
      s'.update = s.update ++
        (Entry.serialize { e with status := ServerStatus.crashed } ::
         Entry.serialize { e with status := ServerStatus.down } :: t) ∧
      s'.version = s.version ∧ s'.updates = s.updates := by
  obtain ⟨s2, heq, hlen, hslot2, hframe, ⟨cd, hcd, hcdval⟩, hv, hU, hR⟩ :=
    forceReset_eq s id e hi hup
  simp only [forceServerDownComplete]
  rw [heq]
  obtain ⟨s4, h4, sh4⟩ := removeRG_ok
    { s2 with recoveryCalls := s2.recoveryCalls ++ [e] } e.replicationId
  rw [h4, okBind]
  obtain ⟨s5, h5, sh5⟩ := createRG_ok s4
  obtain ⟨-, -, ⟨t4, ht4⟩, h4v, h4U, -⟩ := sh4
  obtain ⟨-, -, ⟨t5, ht5⟩, h5v, h5U, -⟩ := sh5
  refine ⟨s5, t4 ++ t5, h5, ?_, ?_, ?_⟩
  · rw [ht5, ht4]
    show s2.update ++ t4 ++ t5 = _
    rw [hcd, hcdval hm]
    simp
  · rw [h5v, h4v]
    show s2.version = s.version
    rw [hv]
  · rw [h5U, h4U]
    show s2.updates = s.updates
    rw [hU]

/-! ## EnlistServer composition -/

theorem executeComplete_ok (s : CSL) (mask : ServiceMask) (r : Nat)
    (loc : String) :
    ∃ s' newId rec t,
      enlistServerExecuteComplete s mask r loc = .ok (s', newId) ∧
      s'.update = s.update ++ (rec :: t) ∧
      rec.server_id = newId ∧ rec.status = .up ∧
      s'.version = s.version ∧ s'.updates = s.updates := by
  obtain ⟨hgv, hgU, hgp, hgr, hge⟩ := generateUniqueId_fields s
  have higet := generateUniqueId_iget_self s
  obtain ⟨s2, h2, h2v, h2U, h2p, h2r, h2e⟩ :=
    addInfo_ok_fields (generateUniqueId s).1 (generateUniqueId s).2 0
      (by rw [higet]; rfl)
  simp only [enlistServerExecuteComplete]
  rw [h2, okBind]
  obtain ⟨rec, hrec, hrecid, hrecst⟩ :=
    add_update_shape s2 (generateUniqueId s).2 loc mask r
  obtain ⟨e1, he1, he1id, he1st, he1b⟩ :=
    add_iget s2 (generateUniqueId s).2 loc mask r
  rw [getRef_ok _ _ _ he1, okBind]
  by_cases hb : e1.isBackup = true
  · rw [if_pos hb]
    obtain ⟨s4, h4, sh4⟩ :=
      createRG_ok (add s2 (generateUniqueId s).2 loc mask r)
    rw [h4, okBind]
    have hsome4 : (iget s4 (generateUniqueId s).2).isSome := by
      rw [rgshape_iget_isSome sh4, he1]
      rfl
    obtain ⟨s5, h5, h5v, h5U, h5p, h5r, h5e⟩ :=
      addInfo_ok_fields s4 (generateUniqueId s).2 0 hsome4
    rw [h5, okBind]
    obtain ⟨-, -, ⟨t4, ht4⟩, h4v, h4U, -⟩ := sh4
    refine ⟨s5, (generateUniqueId s).2, rec, t4, rfl, ?_, hrecid, hrecst,
      ?_, ?_⟩
    · rw [h5p, ht4, hrec, h2p, hgp]
      simp
    · rw [h5v, h4v]
      show s2.version = s.version
      rw [h2v, hgv]
    · rw [h5U, h4U]
      show s2.updates = s.updates
      rw [h2U, hgU]
  · rw [if_neg hb, okBind]
    have hsome3 : (iget (add s2 (generateUniqueId s).2 loc mask r)
        (generateUniqueId s).2).isSome := by
      rw [he1]
      rfl
    obtain ⟨s5, h5, h5v, h5U, h5p, h5r, h5e⟩ :=
      addInfo_ok_fields (add s2 (generateUniqueId s).2 loc mask r)
        (generateUniqueId s).2 0 hsome3
    rw [h5, okBind]
    refine ⟨s5, (generateUniqueId s).2, rec, [], rfl, ?_, hrecid, hrecst,
      ?_, ?_⟩
    · rw [h5p, hrec, h2p, hgp]
    · rw [h5v]
      show s2.version = s.version
      rw [h2v, hgv]
    · rw [h5U]
      show s2.updates = s.updates
      rw [h2U, hgU]

theorem sublist_three {α : Type} (A T1 T2 : List α) (a b c : α) :
    List.Sublist [a, b, c] (A ++ (a :: b :: (T1 ++ c :: T2))) := by
  have h1 : List.Sublist [c] (T1 ++ c :: T2) :=
    List.Sublist.trans (List.Sublist.cons₂ c (List.nil_sublist T2))
      (List.sublist_append_right T1 (c :: T2))
  have h2 := List.Sublist.cons₂ a (List.Sublist.cons₂ b h1)
  exact List.Sublist.trans h2 (List.sublist_append_right A _)

/-- C2 (amended): when the replaced id is present with status UP and its
services do not include MASTER, the single delta committed by the
enlistServer call contains, in this order (as a subsequence): a record
for the old id with status CRASHED, a record for the old id with status
DOWN, and a record for the newly assigned id with status UP. -/
theorem enlistServer_replace_ordering (s : CSL) (replacesId : ServerId)
    (e : Entry) (mask : ServiceMask) (r : Nat) (loc : String)
    (hi : iget s replacesId = some e) (hup : e.status = .up)
    (hm : e.services.master = false) :
    ∃ s' newId msg,
      enlistServer s replacesId mask r loc = .ok (s', newId) ∧
      s'.updates = s.updates ++ [msg] ∧
      msg.version_number = s.version + 1 ∧
      msg.type = .update ∧
      List.Sublist
        [(replacesId, ServerStatus.crashed), (replacesId, ServerStatus.down),
         (newId, ServerStatus.up)]
        (msg.servers.map statusPair) := by
  have hsid := ((iget_eq_some_iff s replacesId e).mp hi).2.2
  obtain ⟨sf, t1, hf, hfu, hfv, hfU⟩ :=
    forceComplete_ok_update s replacesId e hi hup hm
  obtain ⟨s', newId, rec, t2, hex, hexu, hrid, hrst, hexv, hexU⟩ :=
    executeComplete_ok sf mask r loc
  simp only [enlistServer]
  rw [if_pos (by rw [hi]; rfl), hf, okBind, hex, okBind]
  have hne : s'.update ≠ [] := by
    rw [hexu, hfu]
    simp
  have hcommit := (commitUpdate_spec s').2 hne
  refine ⟨commitUpdate s', newId,
    { servers := s'.update
      version_number := s'.version + 1
      type := .update }, rfl, ?_, ?_, rfl, ?_⟩
  · rw [hcommit.2.1, hexU, hfU]
  · show s'.version + 1 = s.version + 1
    rw [hexv, hfv]
  · show List.Sublist _ (s'.update.map statusPair)
    have hserv : s'.update.map statusPair =
        (s.update.map statusPair) ++
        ((replacesId, ServerStatus.crashed) ::
         (replacesId, ServerStatus.down) ::
         ((t1.map statusPair) ++
          (newId, ServerStatus.up) :: (t2.map statusPair))) := by
      rw [hexu, hfu]
      simp only [List.map_append, List.map_cons, List.append_assoc]
      simp [statusPair, Entry.serialize, hsid, hrid, hrst]
    rw [hserv]
    exact sublist_three _ _ _ _ _ _

/-- Counterexample to C2 as stated: replacing the UP master (1,1) of sM
commits a delta that contains no DOWN record for (1,1) at all (the victim
hosts a master, so remove is skipped and the entry stays CRASHED), even
though records for (1,1) are present. -/
theorem enlistServer_replace_master_counterexample :
    (lastDelta (enlistServer sM ⟨1, 1⟩ maskMaster 100 "tcp:2")).countP
      (fun rec => rec.server_id == (⟨1, 1⟩ : ServerId) &&
                  rec.status == ServerStatus.down) = 0 ∧
    (lastDelta (enlistServer sM ⟨1, 1⟩ maskMaster 100 "tcp:2")).countP
      (fun rec => rec.server_id == (⟨1, 1⟩ : ServerId)) = 1 := by
  constructor
  · decide
  · decide

/-- Witness for the amended C2 at sB: replacing the UP backup (1,1). -/
theorem enlistServer_replace_ordering_witness :
    ∃ s' newId msg,
      enlistServer sB ⟨1, 1⟩ maskBackup 100 "tcp:2" = .ok (s', newId) ∧
      s'.updates = sB.updates ++ [msg] ∧
      msg.version_number = sB.version + 1 ∧
      msg.type = .update ∧
      List.Sublist
        [((⟨1, 1⟩ : ServerId), ServerStatus.crashed),
         (⟨1, 1⟩, ServerStatus.down), (newId, ServerStatus.up)]
        (msg.servers.map statusPair) :=
  enlistServer_replace_ordering sB ⟨1, 1⟩ entryB maskBackup 100 "tcp:2"
    (by decide) rfl rfl

end RAMCloud

namespace RAMCloud

/-! ## C8: the update queue invariant -/

theorem range'_concat_one (a n : Nat) :
    List.range' a (n + 1) = List.range' a n ++ [a + n] := by
  have := @List.range'_concat 1 a n
  simpa using this

theorem getD_map_lt {α β : Type} (l : List α) (f : α → β) (k : Nat)
    (d : α) (d2 : β) (h : k < l.length) :
    (l.map f).getD k d2 = f (l.getD k d) := by
  simp [List.getD_eq_getElem?_getD, List.getElem?_map,
    List.getElem?_eq_getElem h]

theorem getD_range' (a n k : Nat) (h : k < n) (d : Nat) :
    (List.range' a n).getD k d = a + k := by
  rw [List.getD_eq_getElem?_getD, List.getElem?_eq_getElem (by simpa using h)]
  simp [List.getElem_range']

theorem vu_queueInv {s s' : CSL} (h : QueueInv s)
    (hv : s'.version = s.version) (hu : s'.updates = s.updates) :
    QueueInv s' := by
  rw [QueueInv, hv, hu]
  exact h

theorem queue_push_range (n v : Nat) (hn : n ≤ v) :
    List.range' (v + 1 - n) n ++ [v + 1] =
      List.range' (v + 1 + 1 - (n + 1)) (n + 1) := by
  rw [range'_concat_one]
  have ha : v + 1 + 1 - (n + 1) = v + 1 - n := by omega
  have hb : v + 1 - n + n = v + 1 := by omega
  rw [ha, hb]

theorem commit_queueInv (s : CSL) (h : QueueInv s) :
    QueueInv (commitUpdate s) := by
  rw [commitUpdate]
  split
  · exact h
  · obtain ⟨h1, h2⟩ := h
    rw [QueueInv]
    dsimp only
    have hlen : (s.updates ++
        [({ servers := s.update, version_number := s.version + 1,
            type := ServerListType.update } : ServerListMsg)]).length
        = s.updates.length + 1 := by simp
    rw [hlen, List.map_append, h2, List.map_cons, List.map_nil]
    exact ⟨by omega, queue_push_range s.updates.length s.version h1⟩

theorem prune_queueInv (s : CSL) (v : Nat) (h : QueueInv s) :
    QueueInv (pruneUpdates s v) := by
  obtain ⟨h1, h2⟩ := h
  obtain ⟨k, hk, he⟩ := dropWhile_eq_drop
    (fun m => decide (m.version_number ≤ v)) s.updates
  rw [QueueInv, pruneUpdates]
  simp only [he]
  constructor
  · rw [List.length_drop]
    omega
  · rw [List.map_drop, h2, drop_range', List.length_drop]
    have ha : s.version + 1 - s.updates.length + k =
        s.version + 1 - (s.updates.length - k) := by omega
    rw [ha]

theorem crashed_vu (s : CSL) (id : ServerId) (s' : CSL)
    (h : crashed s id = .ok s') :
    s'.version = s.version ∧ s'.updates = s.updates := by
  cases hi : iget s id with
  | none =>
    rw [show crashed s id = .error .unknownServer from by
      simp only [crashed, hi]] at h
    exact absurd h (by simp)
  | some e =>
    cases hst : e.status with
    | up =>
      rw [crashed_up_eq s id e hi hst] at h
      injection h with h1
      rw [← h1]
      exact ⟨rfl, rfl⟩
    | crashed =>
      rw [crashed_noop_eq s id e hi hst] at h
      injection h with h1
      rw [← h1]
      exact ⟨rfl, rfl⟩
    | down =>
      rw [show crashed s id = .error .assertFailed from by
        simp only [crashed, hi]
        rw [if_neg (by rw [hst]; decide), if_pos hst]] at h
      exact absurd h (by simp)

theorem remove_vu (s : CSL) (id : ServerId) (s' : CSL)
    (h : remove s id = .ok s') :
    s'.version = s.version ∧ s'.updates = s.updates := by
  cases hi : iget s id with
  | none =>
    rw [show remove s id = .error .unknownServer from by
      simp only [remove, hi]] at h
    exact absurd h (by simp)
  | some e =>
    simp only [remove, hi] at h
    obtain ⟨s1, hc, h⟩ := exceptBind_ok h
    obtain ⟨hv, hu⟩ := crashed_vu s id s1 hc
    injection h with h1
    rw [← h1]
    exact ⟨hv, hu⟩

theorem removeRG_vu (s : CSL) (gid : Nat) (s' : CSL)
    (h : removeReplicationGroup s gid = .ok s') :
    s'.version = s.version ∧ s'.updates = s.updates := by
  obtain ⟨s2, h2, sh⟩ := removeRG_ok s gid
  rw [h2] at h
  injection h with h1
  rw [← h1]
  exact ⟨sh.2.2.2.1, sh.2.2.2.2.1⟩

theorem createRG_vu (s : CSL) (s' : CSL)
    (h : createReplicationGroup s = .ok s') :
    s'.version = s.version ∧ s'.updates = s.updates := by
  obtain ⟨s2, h2, sh⟩ := createRG_ok s
  rw [h2] at h
  injection h with h1
  rw [← h1]
  exact ⟨sh.2.2.2.1, sh.2.2.2.2.1⟩

theorem forceReset_vu (s : CSL) (id : ServerId) (s' : CSL)
    (h : forceServerDownReset s id = .ok s') :
    s'.version = s.version ∧ s'.updates = s.updates := by
  simp only [forceServerDownReset] at h
  obtain ⟨a1, h1, h⟩ := exceptBind_ok h
  obtain ⟨a2, h2, h⟩ := exceptBind_ok h
  obtain ⟨e, he, h⟩ := exceptBind_ok h
  obtain ⟨s1, hcr, h⟩ := exceptBind_ok h
  obtain ⟨hv1, hu1⟩ := crashed_vu s id s1 hcr
  by_cases hm : (!e.services.master) = true
  · rw [if_pos hm] at h
    obtain ⟨s2, hrm, h⟩ := exceptBind_ok h
    obtain ⟨hv2, hu2⟩ := remove_vu s1 id s2 hrm
    obtain ⟨hv3, hu3⟩ := removeRG_vu _ _ _ h
    exact ⟨by rw [hv3]; show s2.version = s.version; rw [hv2, hv1],
      by rw [hu3]; show s2.updates = s.updates; rw [hu2, hu1]⟩
  · rw [if_neg hm, okBind] at h
    obtain ⟨hv3, hu3⟩ := removeRG_vu _ _ _ h
    exact ⟨by rw [hv3]; show s1.version = s.version; rw [hv1],
      by rw [hu3]; show s1.updates = s.updates; rw [hu1]⟩

theorem forceComplete_vu (s : CSL) (id : ServerId) (s' : CSL)
    (h : forceServerDownComplete s id = .ok s') :
    s'.version = s.version ∧ s'.updates = s.updates := by
  simp only [forceServerDownComplete] at h
  obtain ⟨s4, h4, h⟩ := exceptBind_ok h
  obtain ⟨hv4, hu4⟩ := forceReset_vu s id s4 h4
  obtain ⟨hv5, hu5⟩ := createRG_vu s4 s' h
  exact ⟨by rw [hv5, hv4], by rw [hu5, hu4]⟩

theorem executeComplete_vu (s : CSL) (mask : ServiceMask) (r : Nat)
    (loc : String) (s' : CSL) (nid : ServerId)
    (h : enlistServerExecuteComplete s mask r loc = .ok (s', nid)) :
    s'.version = s.version ∧ s'.updates = s.updates := by
  obtain ⟨s2, nid2, rec, t, heq, -, -, -, hv, hu⟩ :=
    executeComplete_ok s mask r loc
  rw [heq] at h
  injection h with h1
  have hs : s2 = s' := congrArg Prod.fst h1
  rw [← hs]
  exact ⟨hv, hu⟩

theorem updateEntryVersion_vu (s : CSL) (id : ServerId) (v : Nat) :
    (updateEntryVersion s id v).version = s.version ∧
    (updateEntryVersion s id v).updates = s.updates := by
  rw [updateEntryVersion]
  cases iget s id with
  | none => exact ⟨rfl, rfl⟩
  | some e =>
    dsimp only
    split
    · exact ⟨rfl, rfl⟩
    · exact ⟨rfl, rfl⟩

theorem queueInv_of_reachable (s : CSL) (h : Reachable s) : QueueInv s := by
  induction h with
  | init => exact ⟨by decide, by decide⟩
  | addStep s id loc mask r hr ih =>
    exact commit_queueInv _ (vu_queueInv ih rfl rfl)
  | crashedStep s id s' hr hok ih =>
    obtain ⟨hv, hu⟩ := crashed_vu s id s' hok
    exact commit_queueInv _ (vu_queueInv ih hv hu)
  | removeStep s id s' hr hok ih =>
    obtain ⟨hv, hu⟩ := remove_vu s id s' hok
    exact commit_queueInv _ (vu_queueInv ih hv hu)
  | enlistStep s rid mask r loc s' nid hr hok ih =>
    simp only [enlistServer] at hok
    by_cases hc : (iget s rid).isSome = true
    · rw [if_pos hc] at hok
      obtain ⟨s1, h1, hok⟩ := exceptBind_ok hok
      obtain ⟨hv1, hu1⟩ := forceComplete_vu s rid s1 h1
      obtain ⟨p, hp, hok⟩ := exceptBind_ok hok
      obtain ⟨hv2, hu2⟩ := executeComplete_vu s1 mask r loc p.1 p.2 hp
      injection hok with h3
      have hcp : commitUpdate p.1 = s' := congrArg Prod.fst h3
      rw [← hcp]
      exact commit_queueInv _
        (vu_queueInv ih (by rw [hv2, hv1]) (by rw [hu2, hu1]))
    · rw [if_neg hc, okBind] at hok
      obtain ⟨p, hp, hok⟩ := exceptBind_ok hok
      obtain ⟨hv2, hu2⟩ := executeComplete_vu s mask r loc p.1 p.2 hp
      injection hok with h3
      have hcp : commitUpdate p.1 = s' := congrArg Prod.fst h3
      rw [← hcp]
      exact commit_queueInv _ (vu_queueInv ih hv2 hu2)
  | hintDownStep s id s' hr hok ih =>
    obtain ⟨hv, hu⟩ := forceComplete_vu s id s' hok
    exact commit_queueInv _ (vu_queueInv ih hv hu)
  | forceDownRecoverStep s id s' hr hok ih =>
    obtain ⟨hv, hu⟩ := forceComplete_vu s id s' hok
    exact vu_queueInv ih hv hu
  | genIdStep s hr ih =>
    obtain ⟨hv, hu, -⟩ := generateUniqueId_fields s
    exact vu_queueInv ih hv hu
  | pruneStep s v hr hle ih =>
    exact prune_queueInv s v ih
  | updateVersionStep s id v hr ih =>
    obtain ⟨hv, hu⟩ := updateEntryVersion_vu s id v
    exact vu_queueInv ih hv hu

/-- C8: in every reachable state the committed updates carry consecutive
version numbers increasing by exactly 1, the head's version is at most
the cluster version, the tail's version equals the cluster version when
the queue is non-empty, and the delta at offset k from the head carries
the head's version plus k (so the delta for target version v sits at
offset v minus the head's version). -/
theorem updateQueue_invariant (s : CSL) (h : Reachable s) :
    (∀ k, k + 1 < s.updates.length →
      (s.updates.getD (k + 1) default).version_number =
        (s.updates.getD k default).version_number + 1) ∧
    (s.updates ≠ [] →
      (s.updates.getD 0 default).version_number ≤ s.version ∧
      (s.updates.getD (s.updates.length - 1) default).version_number =
        s.version) ∧
    (∀ k, k < s.updates.length →
      (s.updates.getD k default).version_number =
        (s.updates.getD 0 default).version_number + k) := by
  obtain ⟨h1, h2⟩ := queueInv_of_reachable s h
  have key : ∀ k, k < s.updates.length →
      (s.updates.getD k default).version_number =
        s.version + 1 - s.updates.length + k := by
    intro k hk
    have hmapped := congrArg (fun l => l.getD k 0) h2
    simp only at hmapped
    rw [getD_map_lt _ _ _ default _ hk, getD_range' _ _ _ hk] at hmapped
    exact hmapped
  have hlen0 : s.updates ≠ [] → 0 < s.updates.length := by
    intro hne
    cases hu : s.updates with
    | nil => exact absurd hu hne
    | cons a t => simp [hu]
  refine ⟨?_, ?_, ?_⟩
  · intro k hk
    rw [key (k + 1) hk, key k (by omega)]
    omega
  · intro hne
    have h0 := hlen0 hne
    rw [key 0 h0, key (s.updates.length - 1) (by omega)]
    exact ⟨by omega, by omega⟩
  · intro k hk
    have h0 : 0 < s.updates.length := by omega
    rw [key k hk, key 0 h0]
    omega

/-- Witness for C8 at the state reached by one public add: the single
committed update's head and tail version equal the cluster version. -/
theorem updateQueue_invariant_witness :
    (sOne.updates.getD 0 default).version_number ≤ sOne.version ∧
    (sOne.updates.getD (sOne.updates.length - 1) default).version_number =
      sOne.version :=
  (updateQueue_invariant sOne
    (Reachable.addStep initState ⟨1, 1⟩ "tcp:1" maskMaster 0
      Reachable.init)).2.1 (by decide)

end RAMCloud

namespace RAMCloud

/-! ## C3: createReplicationGroup -/

theorem setRep_up_fields (s : CSL) (id : ServerId) (e : Entry) (r : Nat)
    (hi : iget s id = some e) (hu : e.status = .up) :
    ∃ s1, setReplicationId s id r = .ok s1 ∧
      s1.serverList = s.serverList.set id.index
        { listGetSlot s id.index with
          entry := some { e with replicationId := r } } ∧
      s1.nextReplicationId = s.nextReplicationId :=
  ⟨_, setRep_up r hi hu, rfl, rfl⟩

theorem assignRG_sets (r : Nat) (g : List ServerId) :
    ∀ s : CSL,
      (∀ id ∈ g, ∃ e, iget s id = some e ∧ e.status = .up) →
      (g.Pairwise fun a b => a.index ≠ b.index) →
      ∃ s', assignReplicationGroup s r g = .ok (s', true) ∧
        s'.serverList.length = s.serverList.length ∧
        s'.nextReplicationId = s.nextReplicationId ∧
        (∀ k, (∀ id ∈ g, id.index ≠ k) → listGetSlot s' k = listGetSlot s k) ∧
        (∀ id ∈ g, ∀ e, iget s id = some e →
          (listGetSlot s' id.index).entry =
            some { e with replicationId := r }) := by
  induction g with
  | nil =>
    intro s hmem hdist
    exact ⟨s, rfl, rfl, rfl, fun k _ => rfl, by simp⟩
  | cons id0 rest ih =>
    intro s hmem hdist
    obtain ⟨e0, he0, hu0⟩ := hmem id0 (by simp)
    have hlt := ((iget_eq_some_iff s id0 e0).mp he0).1
    obtain ⟨hd0, hdrest⟩ := List.pairwise_cons.mp hdist
    obtain ⟨s1, h1, h1l, h1r⟩ := setRep_up_fields s id0 e0 r he0 hu0
    have h1len : s1.serverList.length = s.serverList.length := by
      rw [h1l, List.length_set]
    have h1self : listGetSlot s1 id0.index =
        { listGetSlot s id0.index with
          entry := some { e0 with replicationId := r } } := by
      simp only [listGetSlot, h1l]
      exact getD_set_self _ _ _ _ hlt
    have h1frame : ∀ k, k ≠ id0.index → listGetSlot s1 k = listGetSlot s k := by
      intro k hk
      simp only [listGetSlot, h1l]
      exact getD_set_ne _ _ _ _ _ hk
    have higet1 : ∀ id2, id2 ∈ rest → iget s1 id2 = iget s id2 := by
      intro id2 hm2
      exact iget_congr s s1 id2 h1len
        (h1frame id2.index (fun hk => hd0 id2 hm2 hk.symm))
    obtain ⟨s', heq, hlen2, hrid2, hframe2, hsets2⟩ := ih s1
      (fun id2 hm2 => (higet1 id2 hm2) ▸ hmem id2 (by simp [hm2]))
      hdrest
    rw [assignReplicationGroup, if_neg (by rw [he0]; simp), h1, okBind]
    refine ⟨s', heq, hlen2.trans h1len, hrid2.trans h1r, ?_, ?_⟩
    · intro k hk
      rw [hframe2 k (fun id2 hm2 => hk id2 (by simp [hm2]))]
      exact h1frame k (fun hkk => hk id0 (by simp) hkk.symm)
    · intro id2 hm2 e he
      rcases List.mem_cons.mp hm2 with hh | ht
      · rw [hh] at he
        have he0e : e = e0 := by
          rw [he0] at he
          injection he with h
          exact h.symm
        rw [hh, hframe2 id0.index (fun id3 hm3 => (hd0 id3 hm3).symm),
          h1self, he0e]
      · exact hsets2 id2 ht e (by rw [higet1 id2 ht]; exact he)
end RAMCloud

namespace RAMCloud

theorem groupLoop_sets (s : CSL) (rev : List ServerId) :
    (∀ id ∈ rev, ∃ e, iget s id = some e ∧ e.status = .up) →
    (rev.Pairwise fun x y => x.index ≠ y.index) →
    ∃ s', groupLoop s rev = .ok s' ∧
      s'.nextReplicationId = s.nextReplicationId + rev.length / 3 ∧
      (∀ j, j < 3 * (rev.length / 3) → ∀ e,
        iget s (rev.getD j ⟨0, 0⟩) = some e →
        (listGetSlot s' (rev.getD j ⟨0, 0⟩).index).entry =
          some { e with replicationId := s.nextReplicationId + j / 3 }) ∧
      (∀ k, (∀ id ∈ rev, id.index ≠ k) →
        listGetSlot s' k = listGetSlot s k) := by
  induction s, rev using groupLoop.induct with
  | case1 s a b c rest ih =>
    intro hmem hdist
    obtain ⟨ha, hdist1⟩ := List.pairwise_cons.mp hdist
    obtain ⟨hbb, hdist2⟩ := List.pairwise_cons.mp hdist1
    obtain ⟨hcc, hdrest⟩ := List.pairwise_cons.mp hdist2
    have hlift : ∀ id ∈ ([a, b, c] : List ServerId),
        id ∈ a :: b :: c :: rest := by
      intro id hm
      simp only [List.mem_cons, List.mem_singleton] at hm ⊢
      tauto
    have habc : ∀ id ∈ ([a, b, c] : List ServerId),
        ∃ e, iget s id = some e ∧ e.status = .up :=
      fun id hm => hmem id (hlift id hm)
    have hdabc : ([a, b, c] : List ServerId).Pairwise
        (fun x y => x.index ≠ y.index) := by
      refine List.Pairwise.cons ?_ (List.Pairwise.cons ?_ ?_)
      · intro x hx
        simp only [List.mem_cons, List.mem_singleton] at hx
        rcases hx with rfl | rfl | hx
        · exact ha x (by simp)
        · exact ha x (by simp)
        · simp at hx
      · intro x hx
        simp only [List.mem_cons, List.not_mem_nil, or_false] at hx
        subst hx
        exact hbb x (by simp)
      · simp
    obtain ⟨s1, h1, h1len, h1rid, h1frame, h1sets⟩ :=
      assignRG_sets s.nextReplicationId [a, b, c] s habc hdabc
    have hother : ∀ id2 ∈ rest, ∀ id3 ∈ ([a, b, c] : List ServerId),
        id3.index ≠ id2.index := by
      intro id2 hm2 id3 hm3
      simp only [List.mem_cons, List.not_mem_nil, or_false] at hm3
      rcases hm3 with rfl | rfl | rfl
      · exact ha id2 (by simp [hm2])
      · exact hbb id2 (by simp [hm2])
      · exact hcc id2 hm2
    have higet1 : ∀ id2 ∈ rest, iget s1 id2 = iget s id2 := by
      intro id2 hm2
      exact iget_congr s s1 id2 h1len
        (h1frame id2.index (fun id3 hm3 => hother id2 hm2 id3 hm3))
    have hrestmem : ∀ id2 ∈ rest,
        ∃ e, iget s1 id2 = some e ∧ e.status = .up := by
      intro id2 hm2
      rw [higet1 id2 hm2]
      exact hmem id2 (by simp [hm2])
    obtain ⟨s', heq, hrid', hsets', hframe'⟩ := ih (s1, true) hrestmem hdrest
    rw [groupLoop, h1, okBind]
    refine ⟨s', heq, ?_, ?_, ?_⟩
    · rw [hrid']
      show s1.nextReplicationId + 1 + rest.length / 3 =
        s.nextReplicationId + (rest.length + 3) / 3
      rw [h1rid]
      omega
    · intro j hj e he
      have hlen3 : (a :: b :: c :: rest).length = rest.length + 3 := by simp
      rw [hlen3] at hj
      rcases j with _ | j
      · have hgd : (a :: b :: c :: rest).getD 0 ⟨0, 0⟩ = a := rfl
        rw [hgd] at he ⊢
        rw [hframe' a.index (fun id2 hm2 => (hother id2 hm2 a (by simp)).symm)]
        have := h1sets a (by simp) e he
        show (listGetSlot s1 a.index).entry = _
        rw [this]
        norm_num
      · rcases j with _ | j
        · have hgd : (a :: b :: c :: rest).getD 1 ⟨0, 0⟩ = b := rfl
          rw [hgd] at he ⊢
          rw [hframe' b.index (fun id2 hm2 => (hother id2 hm2 b (by simp)).symm)]
          have := h1sets b (by simp) e he
          show (listGetSlot s1 b.index).entry = _
          rw [this]
          norm_num
        · rcases j with _ | j
          · have hgd : (a :: b :: c :: rest).getD 2 ⟨0, 0⟩ = c := rfl
            rw [hgd] at he ⊢
            rw [hframe' c.index (fun id2 hm2 => (hother id2 hm2 c (by simp)).symm)]
            have := h1sets c (by simp) e he
            show (listGetSlot s1 c.index).entry = _
            rw [this]
            norm_num
          · have hgd : (a :: b :: c :: rest).getD (j + 3) ⟨0, 0⟩ =
                rest.getD j ⟨0, 0⟩ := rfl
            rw [hgd] at he ⊢
            have hjlt : j < 3 * (rest.length / 3) := by omega
            have hjlen : j < rest.length := by omega
            have hmemj : rest.getD j ⟨0, 0⟩ ∈ rest := by
              rw [List.getD_eq_getElem rest ⟨0, 0⟩ hjlen]
              exact List.getElem_mem hjlen
            have := hsets' j hjlt e (by
              have h2 : iget s1 (rest.getD j ⟨0, 0⟩) = some e := by
                rw [higet1 _ hmemj]
                exact he
              exact h2)
            rw [this]
            have harith2 : s1.nextReplicationId + 1 + j / 3 =
                s.nextReplicationId + (j + 3) / 3 := by
              rw [h1rid]
              omega
            rw [show ({ s1 with nextReplicationId :=
                s1.nextReplicationId + 1 } : CSL).nextReplicationId =
                s1.nextReplicationId + 1 from rfl, harith2]
    · intro k hk
      rw [hframe' k (fun id2 hm2 => hk id2 (by simp [hm2]))]
      exact h1frame k (fun id3 hm3 => hk id3 (hlift id3 hm3))
  | case2 t s ht =>
    intro hmem hdist
    cases t with
    | nil =>
      refine ⟨s, rfl, by simp, ?_, fun k _ => rfl⟩
      intro j hj
      have h0 : ([] : List ServerId).length = 0 := rfl
      rw [h0] at hj
      omega
    | cons a t1 =>
      cases t1 with
      | nil =>
        refine ⟨s, rfl, ?_, ?_, fun k _ => rfl⟩
        · show s.nextReplicationId = s.nextReplicationId + 1 / 3
          omega
        · intro j hj
          have h0 : ([a] : List ServerId).length = 1 := rfl
          rw [h0] at hj
          omega
      | cons b t2 =>
        cases t2 with
        | nil =>
          refine ⟨s, rfl, ?_, ?_, fun k _ => rfl⟩
          · show s.nextReplicationId = s.nextReplicationId + 2 / 3
            omega
          · intro j hj
            have h0 : ([a, b] : List ServerId).length = 2 := rfl
            rw [h0] at hj
            omega
        | cons c rest => exact (ht a b c rest rfl).elim

end RAMCloud

namespace RAMCloud

theorem WF_of_check (s : CSL) (h : wfCheck s = true) : WF s := by
  intro i e he
  by_cases hi : i < s.serverList.length
  · have h2 := List.all_eq_true.mp h i (List.mem_range.mpr hi)
    rw [he] at h2
    simpa using h2
  · have h0 : listGetSlot s i = emptySlot :=
      List.getD_eq_default _ _ (Nat.le_of_not_lt hi)
    rw [h0] at he
    exact absurd he (by simp [emptySlot])

theorem freeBackups_mem (s : CSL) (hwf : WF s) (id : ServerId) :
    id ∈ freeBackupsScan s ↔
      ∃ e, iget s id = some e ∧ e.status = .up ∧
        e.services.backup = true ∧ e.replicationId = 0 := by
  rw [freeBackupsScan, List.mem_filterMap]
  constructor
  · rintro ⟨i, hi, hf⟩
    rw [List.mem_range] at hi
    split at hf
    · rename_i e heq
      split at hf
      · rename_i hb
        injection hf with h2
        rw [Entry.isBackup, Bool.and_eq_true, Bool.and_eq_true,
          decide_eq_true_iff, beq_iff_eq] at hb
        have hidx : e.serverId.index = i := hwf i e heq
        refine ⟨e, (iget_eq_some_iff s id e).mpr ⟨?_, ?_, h2⟩,
          hb.1.1, hb.1.2, hb.2⟩
        · rw [← h2, hidx]
          exact hi
        · rw [← h2, hidx]
          exact heq
      · exact absurd hf (by simp)
    · exact absurd hf (by simp)
  · rintro ⟨e, hie, hup, hbk, hr0⟩
    obtain ⟨hlt, hslot, hsid⟩ := (iget_eq_some_iff s id e).mp hie
    refine ⟨id.index, List.mem_range.mpr hlt, ?_⟩
    rw [hslot]
    show (if e.isBackup && e.replicationId == 0 then some e.serverId
      else none) = some id
    have hcond : (e.isBackup && e.replicationId == 0) = true := by
      rw [Entry.isBackup, hup, hbk, hr0]
      rfl
    rw [if_pos hcond, hsid]

theorem freeBackups_pairwise (s : CSL) (hwf : WF s) :
    (freeBackupsScan s).Pairwise fun x y => x.index ≠ y.index := by
  rw [freeBackupsScan]
  refine List.Pairwise.filterMap _ ?_ (List.pairwise_lt_range _)
  intro a b hab c hc d hd
  simp only [Option.mem_def] at hc hd
  have hca : c.index = a := by
    split at hc
    · rename_i e heq
      split at hc
      · injection hc with h2
        rw [← h2]
        exact hwf a e heq
      · exact absurd hc (by simp)
    · exact absurd hc (by simp)
  have hdb : d.index = b := by
    split at hd
    · rename_i e heq
      split at hd
      · injection hd with h2
        rw [← h2]
        exact hwf b e heq
      · exact absurd hd (by simp)
    · exact absurd hd (by simp)
  rw [hca, hdb]
  omega

theorem createRG_frame (s : CSL) (hwf : WF s) :
    ∃ s', createReplicationGroup s = .ok s' ∧
      s'.nextReplicationId =
        s.nextReplicationId + (freeBackupsScan s).length / 3 ∧
      (∀ j, j < 3 * ((freeBackupsScan s).length / 3) → ∀ e,
        iget s ((freeBackupsScan s).reverse.getD j ⟨0, 0⟩) = some e →
        (listGetSlot s'
            ((freeBackupsScan s).reverse.getD j ⟨0, 0⟩).index).entry =
          some { e with replicationId := s.nextReplicationId + j / 3 }) ∧
      (∀ k, (∀ id ∈ freeBackupsScan s, id.index ≠ k) →
        listGetSlot s' k = listGetSlot s k) := by
  have hup : ∀ id ∈ (freeBackupsScan s).reverse,
      ∃ e, iget s id = some e ∧ e.status = .up := by
    intro id hm
    rw [List.mem_reverse] at hm
    obtain ⟨e, hie, hu, -, -⟩ := (freeBackups_mem s hwf id).mp hm
    exact ⟨e, hie, hu⟩
  have hpw : ((freeBackupsScan s).reverse).Pairwise
      (fun x y => x.index ≠ y.index) := by
    rw [List.pairwise_reverse]
    exact (freeBackups_pairwise s hwf).imp Ne.symm
  obtain ⟨s', heq, hrid, hsets, hframe⟩ := groupLoop_sets s _ hup hpw
  rw [List.length_reverse] at hrid hsets
  refine ⟨s', heq, hrid, hsets, ?_⟩
  intro k hk
  exact hframe k fun id hm => hk id (List.mem_reverse.mp hm)

/-- C3: amended. createReplicationGroup gathers exactly the UP backups
with replicationId 0 (in slot order); it then forms groups of three by
popping candidates from the BACK of the gathered vector, i.e. in reverse
slot order, assigning nextReplicationId to each group and incrementing it;
in a well-formed list every gathered candidate is retrievable, so every
formed group is assigned completely; candidates beyond the last full group
and all other slots are untouched. -/
theorem createReplicationGroup_spec (s : CSL) (hwf : WF s) :
    (∀ id, id ∈ freeBackupsScan s ↔
      ∃ e, iget s id = some e ∧ e.status = .up ∧
        e.services.backup = true ∧ e.replicationId = 0) ∧
    ∃ s', createReplicationGroup s = .ok s' ∧
      s'.nextReplicationId =
        s.nextReplicationId + (freeBackupsScan s).length / 3 ∧
      (∀ j, j < 3 * ((freeBackupsScan s).length / 3) → ∀ e,
        iget s ((freeBackupsScan s).reverse.getD j ⟨0, 0⟩) = some e →
        (listGetSlot s'
            ((freeBackupsScan s).reverse.getD j ⟨0, 0⟩).index).entry =
          some { e with replicationId := s.nextReplicationId + j / 3 }) ∧
      (∀ k, (∀ id ∈ freeBackupsScan s, id.index ≠ k) →
        listGetSlot s' k = listGetSlot s k) := by
  exact ⟨freeBackups_mem s hwf, createRG_frame s hwf⟩

theorem createReplicationGroup_spec_witness :
    WF s6 ∧ (⟨6, 1⟩ : ServerId) ∈ freeBackupsScan s6 :=
  ⟨WF_of_check s6 (by decide),
   ((createReplicationGroup_spec s6 (WF_of_check s6 (by decide))).1
       ⟨6, 1⟩).mpr ⟨backupEntry 6, by decide, rfl, rfl, rfl⟩⟩

/-- C3 counterexample: six free backups at slots 1..6, nextReplicationId
1.  Popping three candidates in list order would put slot 1 in the first
fresh group (replicationId 1); the code pops from the back of the gathered
vector, so slot 6 gets replicationId 1 and slot 1 gets replicationId 2. -/
theorem createReplicationGroup_order_counterexample :
    ridAt (createReplicationGroup s6) 1 = some 2 ∧
    ridAt (createReplicationGroup s6) 6 = some 1 := by
  refine ⟨?_, ?_⟩ <;> decide

end RAMCloud

namespace RAMCloud

theorem isBackup_up (f : Entry) (h : f.isBackup = true) : f.status = .up := by
  rw [Entry.isBackup, Bool.and_eq_true, decide_eq_true_iff] at h
  exact h.1

theorem slot_entry_lt (s : CSL) (j : Nat) (f : Entry)
    (h : (listGetSlot s j).entry = some f) : j < s.serverList.length := by
  by_contra hnot
  have h0 : listGetSlot s j = emptySlot :=
    List.getD_eq_default _ _ (Nat.le_of_not_lt hnot)
  rw [h0] at h
  exact absurd h (by simp [emptySlot])

theorem setRid_idem (f : Entry) :
    ({ { f with replicationId := 0 } with replicationId := 0 } : Entry) =
      { f with replicationId := 0 } := rfl

theorem rid_set_self (f : Entry) (h : f.replicationId = 0) :
    ({ f with replicationId := 0 } : Entry) = f := by
  cases f
  simp_all

theorem crashed_not_isBackup (e : Entry) :
    ({ e with status := ServerStatus.crashed } : Entry).isBackup = false := rfl

theorem removeRGLoop_succ_matched (gid n i : Nat) (s : CSL)
    (g : List ServerId) (e : Entry)
    (hE : (listGetSlot s i).entry = some e)
    (hc : (e.isBackup && e.replicationId == gid) = true) :
    removeRGLoop gid (n + 1) i s g = (do
      let p ← assignReplicationGroup s 0 (g ++ [e.serverId])
      removeRGLoop gid n (i + 1) p.1 (g ++ [e.serverId])) := by
  rw [removeRGLoop, hE]
  show (let group1 := if e.isBackup && e.replicationId == gid
          then g ++ [e.serverId] else g
        if group1.isEmpty then removeRGLoop gid n (i + 1) s group1
        else do
          let p ← assignReplicationGroup s 0 group1
          removeRGLoop gid n (i + 1) p.1 group1) = _
  rw [if_pos hc]
  show (if (g ++ [e.serverId]).isEmpty then
          removeRGLoop gid n (i + 1) s (g ++ [e.serverId])
        else do
          let p ← assignReplicationGroup s 0 (g ++ [e.serverId])
          removeRGLoop gid n (i + 1) p.1 (g ++ [e.serverId])) = _
  rw [if_neg (by simp)]

theorem removeRGLoop_succ_none (gid n i : Nat) (s : CSL) (g : List ServerId)
    (hE : (listGetSlot s i).entry = none) :
    removeRGLoop gid (n + 1) i s g =
      (if g.isEmpty then removeRGLoop gid n (i + 1) s g
       else do
         let p ← assignReplicationGroup s 0 g
         removeRGLoop gid n (i + 1) p.1 g) := by
  rw [removeRGLoop, hE]

theorem removeRGLoop_succ_nomatch (gid n i : Nat) (s : CSL)
    (g : List ServerId) (e : Entry)
    (hE : (listGetSlot s i).entry = some e)
    (hc : (e.isBackup && e.replicationId == gid) = false) :
    removeRGLoop gid (n + 1) i s g =
      (if g.isEmpty then removeRGLoop gid n (i + 1) s g
       else do
         let p ← assignReplicationGroup s 0 g
         removeRGLoop gid n (i + 1) p.1 g) := by
  rw [removeRGLoop, hE]
  show (let group1 := if e.isBackup && e.replicationId == gid
          then g ++ [e.serverId] else g
        if group1.isEmpty then removeRGLoop gid n (i + 1) s group1
        else do
          let p ← assignReplicationGroup s 0 group1
          removeRGLoop gid n (i + 1) p.1 group1) = _
  rw [hc, if_neg (show ¬(false = true) by simp)]

end RAMCloud

namespace RAMCloud

theorem assign_reset_group (gid : Nat) (s0 : CSL) (hwf0 : WF s0)
    (i : Nat) (s : CSL) (G : List ServerId)
    (h1 : s.serverList.length = s0.serverList.length)
    (h3 : ∀ j f, j < i → (listGetSlot s0 j).entry = some f →
      f.isBackup = true → f.replicationId = gid →
      (listGetSlot s j).entry = some { f with replicationId := 0 })
    (h2i : ∀ j, i ≤ j → listGetSlot s j = listGetSlot s0 j)
    (h5 : ∀ id ∈ G, id.index ≤ i ∧ ∃ f,
      (listGetSlot s0 id.index).entry = some f ∧ f.serverId = id ∧
      f.isBackup = true ∧ f.replicationId = gid)
    (h6 : G.Pairwise fun a b => a.index ≠ b.index) :
    ∃ s1, assignReplicationGroup s 0 G = .ok (s1, true) ∧
      s1.serverList.length = s.serverList.length ∧
      (∀ k, (∀ id ∈ G, id.index ≠ k) → listGetSlot s1 k = listGetSlot s k) ∧
      (∀ id ∈ G, ∀ f, (listGetSlot s0 id.index).entry = some f →
        (listGetSlot s1 id.index).entry =
          some { f with replicationId := 0 }) := by
  have higet : ∀ id ∈ G, ∀ f, (listGetSlot s0 id.index).entry = some f →
      (id.index < i → iget s id = some { f with replicationId := 0 }) ∧
      (id.index = i → iget s id = some f) := by
    intro id hm f hf0
    obtain ⟨hle, f2, hf20, hf2sid, hf2b, hf2r⟩ := h5 id hm
    rw [hf0] at hf20
    injection hf20 with hfe
    subst hfe
    have hjlt : id.index < s0.serverList.length :=
      slot_entry_lt s0 id.index f hf0
    constructor
    · intro hlt
      exact (iget_eq_some_iff _ _ _).mpr
        ⟨by rw [h1]; exact hjlt, h3 id.index f hlt hf0 hf2b hf2r, hf2sid⟩
    · intro heq
      refine (iget_eq_some_iff _ _ _).mpr
        ⟨by rw [h1]; exact hjlt, ?_, hf2sid⟩
      rw [h2i id.index (by omega)]
      exact hf0
  have hmemb : ∀ id ∈ G, ∃ e2, iget s id = some e2 ∧ e2.status = .up := by
    intro id hm
    obtain ⟨hle, f, hf0, hfsid, hfb, hfr⟩ := h5 id hm
    have hig := higet id hm f hf0
    by_cases hlt : id.index < i
    · exact ⟨_, hig.1 hlt, isBackup_up f hfb⟩
    · exact ⟨_, hig.2 (by omega), isBackup_up f hfb⟩
  obtain ⟨s1, hass, A_len, A_rid, A_frame, A_sets⟩ :=
    assignRG_sets 0 G s hmemb h6
  refine ⟨s1, hass, A_len, A_frame, ?_⟩
  intro id hm f hf0
  obtain ⟨hle, f2, hf20, hf2sid, hf2b, hf2r⟩ := h5 id hm
  rw [hf0] at hf20
  injection hf20 with hfe
  subst hfe
  have hig := higet id hm f hf0
  by_cases hlt : id.index < i
  · have := A_sets id hm _ (hig.1 hlt)
    rw [this, setRid_idem]
  · exact A_sets id hm f (hig.2 (by omega))

end RAMCloud

namespace RAMCloud

theorem removeRGLoop_resets (gid : Nat) (s0 : CSL) (hwf0 : WF s0) :
    ∀ (fuel i : Nat) (s : CSL) (g : List ServerId),
      s.serverList.length = s0.serverList.length →
      (∀ j, i ≤ j → listGetSlot s j = listGetSlot s0 j) →
      (∀ j f, j < i → (listGetSlot s0 j).entry = some f →
        f.isBackup = true → f.replicationId = gid →
        (listGetSlot s j).entry = some { f with replicationId := 0 }) →
      (∀ j, (∀ f, (listGetSlot s0 j).entry = some f →
          f.isBackup = true → f.replicationId = gid → False) →
        listGetSlot s j = listGetSlot s0 j) →
      (∀ id ∈ g, id.index < i ∧ ∃ f,
        (listGetSlot s0 id.index).entry = some f ∧ f.serverId = id ∧
        f.isBackup = true ∧ f.replicationId = gid) →
      g.Pairwise (fun a b => a.index ≠ b.index) →
      (∀ j f, j < i → (listGetSlot s0 j).entry = some f →
        f.isBackup = true → f.replicationId = gid → f.serverId ∈ g) →
      ∃ s', removeRGLoop gid fuel i s g = .ok s' ∧
        s'.serverList.length = s0.serverList.length ∧
        (∀ j f, j < i + fuel → (listGetSlot s0 j).entry = some f →
          f.isBackup = true → f.replicationId = gid →
          (listGetSlot s' j).entry = some { f with replicationId := 0 }) ∧
        (∀ j, (∀ f, (listGetSlot s0 j).entry = some f →
            f.isBackup = true → f.replicationId = gid → False) →
          listGetSlot s' j = listGetSlot s0 j) := by
  intro fuel
  induction fuel with
  | zero =>
    intro i s g h1 h2 h3 h4 h5 h6 h7
    refine ⟨s, rfl, h1, ?_, h4⟩
    intro j f hj hf0 hfb hfr
    exact h3 j f (by omega) hf0 hfb hfr
  | succ n ih =>
    intro i s g h1 h2 h3 h4 h5 h6 h7
    cases hE0 : (listGetSlot s0 i).entry with
    | some e =>
      by_cases hc : (e.isBackup && e.replicationId == gid) = true
      · have hEs : (listGetSlot s i).entry = some e := by
          rw [h2 i (le_refl i)]
          exact hE0
        have hidx : e.serverId.index = i := hwf0 i e hE0
        have hboth : e.isBackup = true ∧ (e.replicationId == gid) = true := by
          rw [Bool.and_eq_true] at hc
          exact hc
        have hfb_e : e.isBackup = true := hboth.1
        have hrid_e : e.replicationId = gid := by
          have h := hboth.2
          simpa using h
        have h5G : ∀ id ∈ g ++ [e.serverId], id.index ≤ i ∧ ∃ f,
            (listGetSlot s0 id.index).entry = some f ∧ f.serverId = id ∧
            f.isBackup = true ∧ f.replicationId = gid := by
          intro id hm
          rcases List.mem_append.mp hm with hm | hm
          · obtain ⟨hlt, hrest⟩ := h5 id hm
            exact ⟨by omega, hrest⟩
          · rw [List.mem_singleton] at hm
            subst hm
            refine ⟨by rw [hidx], e, ?_, rfl, hfb_e, hrid_e⟩
            rw [hidx]
            exact hE0
        have hpwG : (g ++ [e.serverId]).Pairwise
            (fun a b => a.index ≠ b.index) := by
          rw [List.pairwise_append]
          refine ⟨h6, by simp, ?_⟩
          intro a ha b hb
          rw [List.mem_singleton] at hb
          subst hb
          have := (h5 a ha).1
          rw [hidx]
          omega
        obtain ⟨s1, hass, A_len, A_frame, A_sets⟩ :=
          assign_reset_group gid s0 hwf0 i s (g ++ [e.serverId])
            h1 h3 h2 h5G hpwG
        rw [removeRGLoop_succ_matched gid n i s g e hEs hc, hass, okBind]
        have I1 : s1.serverList.length = s0.serverList.length := by
          rw [A_len, h1]
        have I2 : ∀ j, i + 1 ≤ j →
            listGetSlot s1 j = listGetSlot s0 j := by
          intro j hj
          rw [A_frame j ?_]
          · exact h2 j (by omega)
          · intro id hm
            have := (h5G id hm).1
            omega
        have I3 : ∀ j f, j < i + 1 → (listGetSlot s0 j).entry = some f →
            f.isBackup = true → f.replicationId = gid →
            (listGetSlot s1 j).entry =
              some { f with replicationId := 0 } := by
          intro j f hj hf0 hfb hfr
          have hfidx : f.serverId.index = j := hwf0 j f hf0
          by_cases hji : j < i
          · have hmemf : f.serverId ∈ g ++ [e.serverId] :=
              List.mem_append_left _ (h7 j f hji hf0 hfb hfr)
            have := A_sets f.serverId hmemf f (by rw [hfidx]; exact hf0)
            rw [hfidx] at this
            exact this
          · have hji2 : j = i := by omega
            subst hji2
            have hfe : e = f := by
              have h := hf0
              rw [hE0] at h
              exact Option.some.inj h
            have hmemf : f.serverId ∈ g ++ [e.serverId] := by
              rw [← hfe]
              exact List.mem_append_right _ (by simp)
            have := A_sets f.serverId hmemf f (by rw [hfidx]; exact hf0)
            rw [hfidx] at this
            exact this
        have I4 : ∀ j, (∀ f, (listGetSlot s0 j).entry = some f →
            f.isBackup = true → f.replicationId = gid → False) →
            listGetSlot s1 j = listGetSlot s0 j := by
          intro j hun
          rw [A_frame j ?_]
          · exact h4 j hun
          · intro id hm hjj
            rcases List.mem_append.mp hm with hm2 | hm2
            · obtain ⟨-, f, hf0, -, hfb, hfr⟩ := h5 id hm2
              rw [hjj] at hf0
              exact hun f hf0 hfb hfr
            · rw [List.mem_singleton] at hm2
              subst hm2
              rw [hidx] at hjj
              exact hun e (by rw [← hjj]; exact hE0) hfb_e hrid_e
        have I5 : ∀ id ∈ g ++ [e.serverId], id.index < i + 1 ∧ ∃ f,
            (listGetSlot s0 id.index).entry = some f ∧ f.serverId = id ∧
            f.isBackup = true ∧ f.replicationId = gid := by
          intro id hm
          obtain ⟨hle, hrest⟩ := h5G id hm
          exact ⟨by omega, hrest⟩
        have I7 : ∀ j f, j < i + 1 → (listGetSlot s0 j).entry = some f →
            f.isBackup = true → f.replicationId = gid →
            f.serverId ∈ g ++ [e.serverId] := by
          intro j f hj hf0 hfb hfr
          by_cases hji : j < i
          · exact List.mem_append_left _ (h7 j f hji hf0 hfb hfr)
          · have hji2 : j = i := by omega
            subst hji2
            have hfe : e = f := by
              have h := hf0
              rw [hE0] at h
              exact Option.some.inj h
            rw [← hfe]
            exact List.mem_append_right _ (by simp)
        obtain ⟨s', hrec, Rl, Rm, Ru⟩ :=
          ih (i + 1) s1 (g ++ [e.serverId]) I1 I2 I3 I4 I5 hpwG I7
        refine ⟨s', hrec, Rl, ?_, Ru⟩
        intro j f hj hf0 hfb hfr
        exact Rm j f (by omega) hf0 hfb hfr
      · have hcf : (e.isBackup && e.replicationId == gid) = false := by
          simpa using hc
        have hEs : (listGetSlot s i).entry = some e := by
          rw [h2 i (le_refl i)]
          exact hE0
        have hun_i : ∀ f, (listGetSlot s0 i).entry = some f →
            f.isBackup = true → f.replicationId = gid → False := by
          intro f hf hfb hfr
          have hfe : e = f := by
            have h := hf
            rw [hE0] at h
            exact Option.some.inj h
          rw [← hfe] at hfb hfr
          rw [hfb, hfr] at hcf
          simp at hcf
        rw [removeRGLoop_succ_nomatch gid n i s g e hEs hcf]
        cases g with
        | nil =>
          rw [if_pos (show (List.isEmpty ([] : List ServerId)) = true from rfl)]
          have I3n : ∀ j f, j < i + 1 → (listGetSlot s0 j).entry = some f →
              f.isBackup = true → f.replicationId = gid →
              (listGetSlot s j).entry =
                some { f with replicationId := 0 } := by
            intro j f hj hf0 hfb hfr
            by_cases hji : j < i
            · exact h3 j f hji hf0 hfb hfr
            · have hji2 : j = i := by omega
              subst hji2
              exact (hun_i f hf0 hfb hfr).elim
          have I7n : ∀ j f, j < i + 1 → (listGetSlot s0 j).entry = some f →
              f.isBackup = true → f.replicationId = gid →
              f.serverId ∈ ([] : List ServerId) := by
            intro j f hj hf0 hfb hfr
            by_cases hji : j < i
            · exact h7 j f hji hf0 hfb hfr
            · have hji2 : j = i := by omega
              subst hji2
              exact (hun_i f hf0 hfb hfr).elim
          obtain ⟨s', hrec, Rl, Rm, Ru⟩ := ih (i + 1) s []
            h1 (fun j hj => h2 j (by omega)) I3n h4
            (fun id hm => absurd hm (List.not_mem_nil id))
            List.Pairwise.nil I7n
          refine ⟨s', hrec, Rl, ?_, Ru⟩
          intro j f hj hf0 hfb hfr
          exact Rm j f (by omega) hf0 hfb hfr
        | cons a g2 =>
          rw [if_neg (by simp)]
          have h5G : ∀ id ∈ a :: g2, id.index ≤ i ∧ ∃ f,
              (listGetSlot s0 id.index).entry = some f ∧ f.serverId = id ∧
              f.isBackup = true ∧ f.replicationId = gid := by
            intro id hm
            obtain ⟨hlt, hrest⟩ := h5 id hm
            exact ⟨by omega, hrest⟩
          obtain ⟨s1, hass, A_len, A_frame, A_sets⟩ :=
            assign_reset_group gid s0 hwf0 i s (a :: g2) h1 h3 h2 h5G h6
          rw [hass, okBind]
          have I1 : s1.serverList.length = s0.serverList.length := by
            rw [A_len, h1]
          have I2 : ∀ j, i + 1 ≤ j →
              listGetSlot s1 j = listGetSlot s0 j := by
            intro j hj
            rw [A_frame j ?_]
            · exact h2 j (by omega)
            · intro id hm
              have := (h5 id hm).1
              omega
          have I3c : ∀ j f, j < i + 1 → (listGetSlot s0 j).entry = some f →
              f.isBackup = true → f.replicationId = gid →
              (listGetSlot s1 j).entry =
                some { f with replicationId := 0 } := by
            intro j f hj hf0 hfb hfr
            have hfidx : f.serverId.index = j := hwf0 j f hf0
            by_cases hji : j < i
            · have hmemf : f.serverId ∈ a :: g2 :=
                h7 j f hji hf0 hfb hfr
              have := A_sets f.serverId hmemf f (by rw [hfidx]; exact hf0)
              rw [hfidx] at this
              exact this
            · have hji2 : j = i := by omega
              subst hji2
              exact (hun_i f hf0 hfb hfr).elim
          have I4c : ∀ j, (∀ f, (listGetSlot s0 j).entry = some f →
              f.isBackup = true → f.replicationId = gid → False) →
              listGetSlot s1 j = listGetSlot s0 j := by
            intro j hun
            rw [A_frame j ?_]
            · exact h4 j hun
            · intro id hm hjj
              obtain ⟨-, f, hf0, -, hfb, hfr⟩ := h5 id hm
              rw [hjj] at hf0
              exact hun f hf0 hfb hfr
          have I5c : ∀ id ∈ a :: g2, id.index < i + 1 ∧ ∃ f,
              (listGetSlot s0 id.index).entry = some f ∧ f.serverId = id ∧
              f.isBackup = true ∧ f.replicationId = gid := by
            intro id hm
            obtain ⟨hlt, hrest⟩ := h5 id hm
            exact ⟨by omega, hrest⟩
          have I7c : ∀ j f, j < i + 1 → (listGetSlot s0 j).entry = some f →
              f.isBackup = true → f.replicationId = gid →
              f.serverId ∈ a :: g2 := by
            intro j f hj hf0 hfb hfr
            by_cases hji : j < i
            · exact h7 j f hji hf0 hfb hfr
            · have hji2 : j = i := by omega
              subst hji2
              exact (hun_i f hf0 hfb hfr).elim
          obtain ⟨s', hrec, Rl, Rm, Ru⟩ :=
            ih (i + 1) s1 (a :: g2) I1 I2 I3c I4c I5c h6 I7c
          refine ⟨s', hrec, Rl, ?_, Ru⟩
          intro j f hj hf0 hfb hfr
          exact Rm j f (by omega) hf0 hfb hfr
    | none =>
      have hEs : (listGetSlot s i).entry = none := by
        rw [h2 i (le_refl i)]
        exact hE0
      have hun_i : ∀ f, (listGetSlot s0 i).entry = some f →
          f.isBackup = true → f.replicationId = gid → False := by
        intro f hf hfb hfr
        rw [hE0] at hf
        cases hf
      rw [removeRGLoop_succ_none gid n i s g hEs]
      cases g with
      | nil =>
        rw [if_pos (show (List.isEmpty ([] : List ServerId)) = true from rfl)]
        have I3n : ∀ j f, j < i + 1 → (listGetSlot s0 j).entry = some f →
            f.isBackup = true → f.replicationId = gid →
            (listGetSlot s j).entry =
              some { f with replicationId := 0 } := by
          intro j f hj hf0 hfb hfr
          by_cases hji : j < i
          · exact h3 j f hji hf0 hfb hfr
          · have hji2 : j = i := by omega
            subst hji2
            exact (hun_i f hf0 hfb hfr).elim
        have I7n : ∀ j f, j < i + 1 → (listGetSlot s0 j).entry = some f →
            f.isBackup = true → f.replicationId = gid →
            f.serverId ∈ ([] : List ServerId) := by
          intro j f hj hf0 hfb hfr
          by_cases hji : j < i
          · exact h7 j f hji hf0 hfb hfr
          · have hji2 : j = i := by omega
            subst hji2
            exact (hun_i f hf0 hfb hfr).elim
        obtain ⟨s', hrec, Rl, Rm, Ru⟩ := ih (i + 1) s []
          h1 (fun j hj => h2 j (by omega)) I3n h4
          (fun id hm => absurd hm (List.not_mem_nil id))
          List.Pairwise.nil I7n
        refine ⟨s', hrec, Rl, ?_, Ru⟩
        intro j f hj hf0 hfb hfr
        exact Rm j f (by omega) hf0 hfb hfr
      | cons a g2 =>
        rw [if_neg (by simp)]
        have h5G : ∀ id ∈ a :: g2, id.index ≤ i ∧ ∃ f,
            (listGetSlot s0 id.index).entry = some f ∧ f.serverId = id ∧
            f.isBackup = true ∧ f.replicationId = gid := by
          intro id hm
          obtain ⟨hlt, hrest⟩ := h5 id hm
          exact ⟨by omega, hrest⟩
        obtain ⟨s1, hass, A_len, A_frame, A_sets⟩ :=
          assign_reset_group gid s0 hwf0 i s (a :: g2) h1 h3 h2 h5G h6
        rw [hass, okBind]
        have I1 : s1.serverList.length = s0.serverList.length := by
          rw [A_len, h1]
        have I2 : ∀ j, i + 1 ≤ j →
            listGetSlot s1 j = listGetSlot s0 j := by
          intro j hj
          rw [A_frame j ?_]
          · exact h2 j (by omega)
          · intro id hm
            have := (h5 id hm).1
            omega
        have I3c : ∀ j f, j < i + 1 → (listGetSlot s0 j).entry = some f →
            f.isBackup = true → f.replicationId = gid →
            (listGetSlot s1 j).entry =
              some { f with replicationId := 0 } := by
          intro j f hj hf0 hfb hfr
          have hfidx : f.serverId.index = j := hwf0 j f hf0
          by_cases hji : j < i
          · have hmemf : f.serverId ∈ a :: g2 :=
              h7 j f hji hf0 hfb hfr
            have := A_sets f.serverId hmemf f (by rw [hfidx]; exact hf0)
            rw [hfidx] at this
            exact this
          · have hji2 : j = i := by omega
            subst hji2
            exact (hun_i f hf0 hfb hfr).elim
        have I4c : ∀ j, (∀ f, (listGetSlot s0 j).entry = some f →
            f.isBackup = true → f.replicationId = gid → False) →
            listGetSlot s1 j = listGetSlot s0 j := by
          intro j hun
          rw [A_frame j ?_]
          · exact h4 j hun
          · intro id hm hjj
            obtain ⟨-, f, hf0, -, hfb, hfr⟩ := h5 id hm
            rw [hjj] at hf0
            exact hun f hf0 hfb hfr
        have I5c : ∀ id ∈ a :: g2, id.index < i + 1 ∧ ∃ f,
            (listGetSlot s0 id.index).entry = some f ∧ f.serverId = id ∧
            f.isBackup = true ∧ f.replicationId = gid := by
          intro id hm
          obtain ⟨hlt, hrest⟩ := h5 id hm
          exact ⟨by omega, hrest⟩
        have I7c : ∀ j f, j < i + 1 → (listGetSlot s0 j).entry = some f →
            f.isBackup = true → f.replicationId = gid →
            f.serverId ∈ a :: g2 := by
          intro j f hj hf0 hfb hfr
          by_cases hji : j < i
          · exact h7 j f hji hf0 hfb hfr
          · have hji2 : j = i := by omega
            subst hji2
            exact (hun_i f hf0 hfb hfr).elim
        obtain ⟨s', hrec, Rl, Rm, Ru⟩ :=
          ih (i + 1) s1 (a :: g2) I1 I2 I3c I4c I5c h6 I7c
        refine ⟨s', hrec, Rl, ?_, Ru⟩
        intro j f hj hf0 hfb hfr
        exact Rm j f (by omega) hf0 hfb hfr

end RAMCloud

namespace RAMCloud

theorem removeRG_resets (s : CSL) (hwf : WF s) (gid : Nat) (hg : gid ≠ 0) :
    ∃ s', removeReplicationGroup s gid = .ok s' ∧
      s'.serverList.length = s.serverList.length ∧
      (∀ j f, (listGetSlot s j).entry = some f → f.isBackup = true →
        f.replicationId = gid →
        (listGetSlot s' j).entry = some { f with replicationId := 0 }) ∧
      (∀ j, (∀ f, (listGetSlot s j).entry = some f → f.isBackup = true →
          f.replicationId = gid → False) →
        listGetSlot s' j = listGetSlot s j) ∧
      WF s' := by
  obtain ⟨s', hrun, hl, hm, hu⟩ :=
    removeRGLoop_resets gid s hwf s.serverList.length 0 s []
      rfl (fun j hj => rfl) (fun j f hj => absurd hj (by omega))
      (fun j hun => rfl)
      (fun id hm2 => absurd hm2 (List.not_mem_nil id))
      List.Pairwise.nil
      (fun j f hj => absurd hj (by omega))
  rw [removeReplicationGroup, if_neg hg]
  refine ⟨s', hrun, hl, ?_, hu, ?_⟩
  · intro j f hf hfb hfr
    have hjl : j < s.serverList.length := slot_entry_lt s j f hf
    exact hm j f (by omega) hf hfb hfr
  · intro j f' hf'
    by_cases hmt : ∃ f, (listGetSlot s j).entry = some f ∧
        f.isBackup = true ∧ f.replicationId = gid
    · obtain ⟨f, hf, hfb, hfr⟩ := hmt
      have hjl : j < s.serverList.length := slot_entry_lt s j f hf
      have hset := hm j f (by omega) hf hfb hfr
      rw [hset] at hf'
      have hfeq : ({ f with replicationId := 0 } : Entry) = f' :=
        Option.some.inj hf'
      rw [← hfeq]
      show f.serverId.index = j
      exact hwf j f hf
    · have hnone : ∀ f, (listGetSlot s j).entry = some f →
          f.isBackup = true → f.replicationId = gid → False :=
        fun f hf hfb hfr => hmt ⟨f, hf, hfb, hfr⟩
      have hsame := hu j hnone
      rw [hsame] at hf'
      exact hwf j f' hf'

end RAMCloud

namespace RAMCloud

/-- C5: for an UP victim, ForceServerDown::complete marks the entry
CRASHED; it transitions it to DOWN and destroys the slot if and only if
the victim's services do not include MASTER; it invokes
startMasterRecovery exactly once with the pre-crash snapshot of the
entry; and (before the final attempt to form a fresh group) it resets to
0 the replicationId of every UP backup that shared the victim's
replication group. -/
theorem forceServerDown_complete_spec (s : CSL) (id : ServerId) (e : Entry)
    (hwf : WF s) (hi : iget s id = some e) (hup : e.status = .up) :
    ∃ s4 s', forceServerDownReset s id = .ok s4 ∧
      forceServerDownComplete s id = .ok s' ∧
      createReplicationGroup s4 = .ok s' ∧
      ((listGetSlot s' id.index).entry =
        if e.services.master = true
        then some { e with status := ServerStatus.crashed } else none) ∧
      s'.recoveryCalls = s.recoveryCalls ++ [e] ∧
      (∃ t, s'.update = s.update ++ t ∧
        (e.services.master = false →
          Entry.serialize { e with status := ServerStatus.down } ∈ t)) ∧
      (∀ j f, j ≠ id.index → (listGetSlot s j).entry = some f →
        f.isBackup = true → f.replicationId = e.replicationId →
        (listGetSlot s4 j).entry = some { f with replicationId := 0 }) := by
  obtain ⟨s2, heq, hlen2, hslot2, hframe2, ⟨cd, hcd, hcdval⟩, hv2, hU2, hR2⟩ :=
    forceReset_eq s id e hi hup
  have hsid : e.serverId = id := ((iget_eq_some_iff s id e).mp hi).2.2
  have hwf3 : WF { s2 with recoveryCalls := s2.recoveryCalls ++ [e] } := by
    intro j f hf
    have hf2 : (listGetSlot s2 j).entry = some f := hf
    by_cases hj : j = id.index
    · subst hj
      rw [hslot2] at hf2
      by_cases hmm : e.services.master = true
      · rw [if_pos hmm] at hf2
        rw [← Option.some.inj hf2]
        show e.serverId.index = id.index
        rw [hsid]
      · rw [if_neg hmm] at hf2
        cases hf2
    · rw [hframe2 j hj] at hf2
      exact hwf j f hf2
  have hmain : ∃ s4,
      removeReplicationGroup
        { s2 with recoveryCalls := s2.recoveryCalls ++ [e] }
        e.replicationId = .ok s4 ∧
      listGetSlot s4 id.index = listGetSlot s2 id.index ∧
      WF s4 ∧
      (∀ j f, j ≠ id.index → (listGetSlot s j).entry = some f →
        f.isBackup = true → f.replicationId = e.replicationId →
        (listGetSlot s4 j).entry = some { f with replicationId := 0 }) := by
    by_cases hg0 : e.replicationId = 0
    · refine ⟨{ s2 with recoveryCalls := s2.recoveryCalls ++ [e] },
        ?_, rfl, hwf3, ?_⟩
      · rw [hg0, removeReplicationGroup, if_pos rfl]
      · intro j f hne hf hfb hfr
        have hf3 : (listGetSlot
            { s2 with recoveryCalls := s2.recoveryCalls ++ [e] } j).entry =
              some f := by
          show (listGetSlot s2 j).entry = some f
          rw [hframe2 j hne]
          exact hf
        rw [hf3, rid_set_self f (by rw [hfr, hg0])]
    · obtain ⟨s4, hrg, hlen4, hm4, hu4, hwf4⟩ :=
        removeRG_resets { s2 with recoveryCalls := s2.recoveryCalls ++ [e] }
          hwf3 e.replicationId hg0
      refine ⟨s4, hrg, ?_, hwf4, ?_⟩
      · have hun : ∀ f, (listGetSlot
            { s2 with recoveryCalls := s2.recoveryCalls ++ [e] }
              id.index).entry = some f →
            f.isBackup = true → f.replicationId = e.replicationId →
            False := by
          intro f hf hfb hfr
          have hf2 : (listGetSlot s2 id.index).entry = some f := hf
          rw [hslot2] at hf2
          by_cases hmm : e.services.master = true
          · rw [if_pos hmm] at hf2
            rw [← Option.some.inj hf2] at hfb
            rw [crashed_not_isBackup] at hfb
            cases hfb
          · rw [if_neg hmm] at hf2
            cases hf2
        rw [hu4 id.index hun]
        rfl
      · intro j f hne hf hfb hfr
        refine hm4 j f ?_ hfb hfr
        show (listGetSlot s2 j).entry = some f
        rw [hframe2 j hne]
        exact hf
  obtain ⟨s4, P1, P3, P5, P4⟩ := hmain
  obtain ⟨s4b, h4b, sh4⟩ :=
    removeRG_ok { s2 with recoveryCalls := s2.recoveryCalls ++ [e] }
      e.replicationId
  rw [P1] at h4b
  injection h4b with h4bb
  subst h4bb
  obtain ⟨-, -, ⟨t4, ht4⟩, -, -, -, hrc4, -, -, -, -, -⟩ := sh4
  obtain ⟨s', hc1, hcrid, hcsets, hcframe⟩ := createRG_frame s4 P5
  obtain ⟨s5b, hc2, sh5⟩ := createRG_ok s4
  rw [hc1] at hc2
  injection hc2 with hc2b
  subst hc2b
  obtain ⟨-, -, ⟨t5, ht5⟩, -, -, -, hrc5, -, -, -, -, -⟩ := sh5
  have hvframe : listGetSlot s' id.index = listGetSlot s4 id.index := by
    apply hcframe id.index
    intro id2 hm2
    obtain ⟨e2, hie2, hup2, -, -⟩ := (freeBackups_mem s4 P5 id2).mp hm2
    obtain ⟨hlt2, hslot2b, hsid2⟩ := (iget_eq_some_iff s4 id2 e2).mp hie2
    intro hkk
    rw [hkk] at hslot2b
    rw [P3, hslot2] at hslot2b
    by_cases hmm : e.services.master = true
    · rw [if_pos hmm] at hslot2b
      rw [← Option.some.inj hslot2b] at hup2
      simp at hup2
    · rw [if_neg hmm] at hslot2b
      cases hslot2b
  refine ⟨s4, s', heq.trans P1, ?_, hc1, ?_, ?_, ?_, P4⟩
  · rw [forceServerDownComplete, heq, P1, okBind]
    exact hc1
  · rw [hvframe, P3]
    exact hslot2
  · rw [hrc5, hrc4]
    show s2.recoveryCalls ++ [e] = s.recoveryCalls ++ [e]
    rw [hR2]
  · refine ⟨cd ++ (t4 ++ t5), ?_, ?_⟩
    · rw [ht5, ht4]
      show s2.update ++ t4 ++ t5 = s.update ++ (cd ++ (t4 ++ t5))
      rw [hcd]
      simp [List.append_assoc]
    · intro hmf
      exact List.mem_append_left _
        (by rw [hcdval hmf]
            exact List.mem_cons_of_mem _ (List.mem_cons_self _ _))

end RAMCloud

namespace RAMCloud

theorem forceServerDown_complete_spec_witness :
    iget sV ⟨1, 1⟩ = some (groupedEntry 1 5 maskMB) ∧
    ∃ s4 s', forceServerDownReset sV ⟨1, 1⟩ = .ok s4 ∧
      forceServerDownComplete sV ⟨1, 1⟩ = .ok s' ∧
      s'.recoveryCalls = sV.recoveryCalls ++ [groupedEntry 1 5 maskMB] ∧
      (listGetSlot s4 2).entry =
        some { groupedEntry 2 5 maskBackup with replicationId := 0 } := by
  obtain ⟨s4, s', hA, hB, hC, hD, hE, hF, hG⟩ :=
    forceServerDown_complete_spec sV ⟨1, 1⟩ (groupedEntry 1 5 maskMB)
      (WF_of_check sV (by decide)) (by decide) rfl
  refine ⟨by decide, s4, s', hA, hB, hE, ?_⟩
  exact hG 2 (groupedEntry 2 5 maskBackup) (by decide) (by decide)
    (by decide) rfl

end RAMCloud
